import Mathlib

/-!
# Mandelbrot plotter: colour schemes and image sink

A shallow embedding of `src/colour.c` and `src/image.c`.

* C `size_t` / `unsigned int` values are natural numbers; where the code can
  wrap, the reduction modulo the word size is written out.
* C `double` values are exact rationals (`ℚ`); conversions to integer types
  truncate toward zero as in C.
* The output stream is the list of bytes appended to it so far.
-/

namespace Mandelbrot

/-! ## Data model (colour.h, parameters.h, array.h) -/

/-- Modelled from the spec: `enum BitDepth` of colour.h, which is absent from the
sources; the spec lists the four depths 1, 8, 24 and ASCII. -/
inductive BitDepth where
  | BIT_DEPTH_ASCII
  | BIT_DEPTH_1
  | BIT_DEPTH_8
  | BIT_DEPTH_24
  deriving DecidableEq, Repr

/-- Modelled from the spec: the integer value of a `BitDepth` enumerator, the
number of bits per pixel (`depth / 8` is the per-pixel byte count).  The ASCII
enumerator is tested for before any arithmetic on the value, so its number is
never used by the code embedded here. -/
def BitDepth.bits : BitDepth → Nat
  | .BIT_DEPTH_ASCII => 0
  | .BIT_DEPTH_1 => 1
  | .BIT_DEPTH_8 => 8
  | .BIT_DEPTH_24 => 24

/-- Modelled from the spec: `enum ColourSchemeType` of colour.h (absent): the
default kind and the ten named kinds, in the order of the `switch` in
`initialiseColourScheme`; `outOfRange` stands for any other integer the
enumeration object may hold. -/
inductive ColourSchemeType where
  | COLOUR_SCHEME_TYPE_DEFAULT
  | COLOUR_SCHEME_TYPE_ASCII
  | COLOUR_SCHEME_TYPE_ALL
  | COLOUR_SCHEME_TYPE_BLACK_WHITE
  | COLOUR_SCHEME_TYPE_WHITE_BLACK
  | COLOUR_SCHEME_TYPE_GREYSCALE
  | COLOUR_SCHEME_TYPE_RED_WHITE
  | COLOUR_SCHEME_TYPE_FIRE
  | COLOUR_SCHEME_TYPE_ALL_VIBRANT
  | COLOUR_SCHEME_TYPE_RED_HOT
  | COLOUR_SCHEME_TYPE_MATRIX
  | outOfRange (raw : Int)
  deriving DecidableEq, Repr

/-- The mapper functions a scheme can point at (the `mapColour` member is a
function pointer; each constructor names the C function pointed to). -/
inductive MapColourFn where
  | mapColourSchemeAll
  | mapColourSchemeBlackWhite
  | mapColourSchemeWhiteBlack
  | mapColourSchemeGreyscale
  | mapColourSchemeRedWhite
  | mapColourSchemeFire
  | mapColourSchemeAllVibrant
  | mapColourSchemeRedHot
  | mapColourSchemeMatrix
  | mapColourSchemeASCII
  deriving DecidableEq, Repr

/-- The `struct ColourScheme` triple: kind, bit depth, mapper. -/
structure ColourScheme where
  colour : ColourSchemeType
  depth : BitDepth
  mapColour : MapColourFn
  deriving DecidableEq, Repr

/-- Modelled from the spec: `enum EscapeStatus` (its header is absent); the kernel
emits an escape status that is ESCAPED or UNESCAPED. -/
inductive EscapeStatus where
  | ESCAPED
  | UNESCAPED
  deriving DecidableEq, Repr

/-- The `struct ColourRGB`: three `uint8_t` channels. -/
structure ColourRGB where
  r : Nat
  g : Nat
  b : Nat
  deriving DecidableEq, Repr

/-- The `struct ColourHSV`: three `double` members. -/
structure ColourHSV where
  h : ℚ
  s : ℚ
  v : ℚ
  deriving DecidableEq, Repr

/-- Modelled from the spec: the precision mode held by the global `precision`
(its header, ext_precision.h, is absent): one of standard, extended and
arbitrary; `outOfRange` stands for any other integer the object may hold. -/
inductive PrecisionMode where
  | STD_PRECISION
  | EXT_PRECISION
  | MUL_PRECISION
  | outOfRange (raw : Int)
  deriving DecidableEq, Repr

/-- The thread start routines image.c can hand to `pthread_create` (each
constructor names the C function). -/
inductive FractalKernel where
  | generateFractal
  | generateFractalExt
  | generateFractalMP
  | generateFractalRow
  deriving DecidableEq, Repr

/-- Modelled from the spec: `enum OutputType` of parameters.h (absent); the
destination is an image file (PNM) or the terminal. -/
inductive OutputType where
  | OUTPUT_PNM
  | OUTPUT_TERMINAL
  deriving DecidableEq, Repr

/-- The fields of `PlotCTX` that image.c reads or writes.  `file` is `none` for a
NULL stream and otherwise the bytes written to the stream so far. -/
structure PlotCTX where
  width : Nat
  height : Nat
  output : OutputType
  colour : ColourScheme
  file : Option (List Nat)
  deriving DecidableEq, Repr

/-! ## C arithmetic conversions -/

/-- The width in bits of `size_t` (LP64 data model). -/
def SIZE_BITS : Nat := 64

/-- The width in bits of `int` and `unsigned int`. -/
def UINT_BITS : Nat := 32

/-- Conversion of a `double` to an integer: the fractional part is discarded
(truncation toward zero). -/
def truncate (x : ℚ) : Int :=
  if 0 ≤ x then ⌊x⌋ else ⌈x⌉

/-- Conversion of an integer value to an unsigned type of `bits` bits: reduction
modulo `2 ^ bits`. -/
def wrap (bits : Nat) (z : Int) : Nat :=
  (z % (2 : Int) ^ bits).toNat

/-- Conversion of a `double` to `size_t`. -/
def toSizeT (x : ℚ) : Nat :=
  wrap SIZE_BITS (truncate x)

/-- Conversion of a `double` to `unsigned int`. -/
def toUInt (x : ℚ) : Nat :=
  wrap UINT_BITS (truncate x)

/-- Conversion of a `double` to `uint8_t` / `unsigned char`. -/
def toUInt8 (x : ℚ) : Nat :=
  wrap 8 (truncate x)

/-- The library function `fmod(x, y)`: `x` minus `y` times the quotient `x / y`
truncated toward zero; the result has the sign of `x`. -/
def fmod (x y : ℚ) : ℚ :=
  x - (truncate (x / y) : ℚ) * y

/-- The library function `fabs`. -/
def fabs (x : ℚ) : ℚ :=
  if x < 0 then -x else x

/-! ## colour.c: initialiseColourScheme -/

/-- The local constant `COLOUR_SCHEME_DEFAULT` of `initialiseColourScheme`. -/
def COLOUR_SCHEME_DEFAULT : ColourScheme :=
  { colour := .COLOUR_SCHEME_TYPE_ALL
    depth := .BIT_DEPTH_24
    mapColour := .mapColourSchemeAll }

/-- Embedding of `initialiseColourScheme`: the kind is stored first, then the
`switch` runs.  The `COLOUR_SCHEME_TYPE_DEFAULT` case has no `break`, so control
falls through into the `COLOUR_SCHEME_TYPE_ASCII` case. -/
def initialiseColourScheme (scheme : ColourScheme) (colour : ColourSchemeType) :
    ColourScheme :=
  let scheme := { scheme with colour := colour }
  match colour with
  | .COLOUR_SCHEME_TYPE_DEFAULT =>
    let scheme := { scheme with colour := COLOUR_SCHEME_DEFAULT.colour }
    let scheme := { scheme with depth := COLOUR_SCHEME_DEFAULT.depth }
    let scheme := { scheme with mapColour := COLOUR_SCHEME_DEFAULT.mapColour }
    -- falls through
    let scheme := { scheme with depth := .BIT_DEPTH_ASCII }
    { scheme with mapColour := .mapColourSchemeASCII }
  | .COLOUR_SCHEME_TYPE_ASCII =>
    let scheme := { scheme with depth := .BIT_DEPTH_ASCII }
    { scheme with mapColour := .mapColourSchemeASCII }
  | .COLOUR_SCHEME_TYPE_ALL =>
    let scheme := { scheme with depth := .BIT_DEPTH_24 }
    { scheme with mapColour := .mapColourSchemeAll }
  | .COLOUR_SCHEME_TYPE_BLACK_WHITE =>
    let scheme := { scheme with depth := .BIT_DEPTH_1 }
    { scheme with mapColour := .mapColourSchemeBlackWhite }
  | .COLOUR_SCHEME_TYPE_WHITE_BLACK =>
    let scheme := { scheme with depth := .BIT_DEPTH_1 }
    { scheme with mapColour := .mapColourSchemeWhiteBlack }
  | .COLOUR_SCHEME_TYPE_GREYSCALE =>
    let scheme := { scheme with depth := .BIT_DEPTH_8 }
    { scheme with mapColour := .mapColourSchemeGreyscale }
  | .COLOUR_SCHEME_TYPE_RED_WHITE =>
    let scheme := { scheme with depth := .BIT_DEPTH_24 }
    { scheme with mapColour := .mapColourSchemeRedWhite }
  | .COLOUR_SCHEME_TYPE_FIRE =>
    let scheme := { scheme with depth := .BIT_DEPTH_24 }
    { scheme with mapColour := .mapColourSchemeFire }
  | .COLOUR_SCHEME_TYPE_ALL_VIBRANT =>
    let scheme := { scheme with depth := .BIT_DEPTH_24 }
    { scheme with mapColour := .mapColourSchemeAllVibrant }
  | .COLOUR_SCHEME_TYPE_RED_HOT =>
    let scheme := { scheme with depth := .BIT_DEPTH_24 }
    { scheme with mapColour := .mapColourSchemeRedHot }
  | .COLOUR_SCHEME_TYPE_MATRIX =>
    let scheme := { scheme with depth := .BIT_DEPTH_24 }
    { scheme with mapColour := .mapColourSchemeMatrix }
  | .outOfRange _ =>
    let scheme := { scheme with colour := COLOUR_SCHEME_DEFAULT.colour }
    let scheme := { scheme with depth := COLOUR_SCHEME_DEFAULT.depth }
    { scheme with mapColour := COLOUR_SCHEME_DEFAULT.mapColour }

/-! ## colour.c: smoothing and the mappers -/

/-- The string `OUTPUT_TERMINAL_CHARSET`. -/
def OUTPUT_TERMINAL_CHARSET : String := " .:-=+*#%@"

/-- The constant `OUTPUT_TERMINAL_CHARSET_LENGTH`: the size of the string literal
less its terminating NUL. -/
def OUTPUT_TERMINAL_CHARSET_LENGTH : Nat :=
  ((OUTPUT_TERMINAL_CHARSET.length + 1) - 1) / 1

/-- The constant `CHAR_SCALE_MULTIPLIER` (0.3). -/
def CHAR_SCALE_MULTIPLIER : ℚ := 3 / 10

/-- Embedding of `smooth`; the file-scope variable `smoothFactor` is passed in. -/
def smooth (smoothFactor : ℚ) (iterations : Nat) : ℚ :=
  (iterations : ℚ) + 1 - smoothFactor

/-- Embedding of `hsvToRGB`.  Negative inputs are replaced by 0; a zero value
gives black; otherwise the sextant `i` and the fractional hue are computed and
the channels assigned.  The assignments to the `uint8_t` channels convert the
`double` on the right-hand side. -/
def hsvToRGB (_rgb : ColourRGB) (hsv : ColourHSV) : ColourRGB :=
  let hsv := if hsv.h < 0 then { hsv with h := 0 } else hsv
  let hsv := if hsv.s < 0 then { hsv with s := 0 } else hsv
  let hsv := if hsv.v < 0 then { hsv with v := 0 } else hsv
  if hsv.v = 0 then
    { r := 0, g := 0, b := 0 }
  else
    let i : Nat := toUInt8 (⌊hsv.h / 60⌋ : ℚ)
    let hsv := { hsv with h := hsv.h / 60 - (i : ℚ) }
    let p : ℚ := hsv.v * (1 - hsv.s) * 255
    let q : ℚ := hsv.v * (1 - hsv.s * hsv.h) * 255
    let r : ℚ := hsv.v * (1 - hsv.s * (1 - hsv.h)) * 255
    match i with
    | 0 => { r := toUInt8 hsv.v, g := toUInt8 r, b := toUInt8 p }
    | 1 => { r := toUInt8 q, g := toUInt8 hsv.v, b := toUInt8 p }
    | 2 => { r := toUInt8 p, g := toUInt8 hsv.v, b := toUInt8 r }
    | 3 => { r := toUInt8 p, g := toUInt8 q, b := toUInt8 hsv.v }
    | 4 => { r := toUInt8 r, g := toUInt8 p, b := toUInt8 hsv.v }
    | 5 => { r := toUInt8 hsv.v, g := toUInt8 p, b := toUInt8 q }
    | _ => { r := toUInt8 hsv.v, g := toUInt8 r, b := toUInt8 p }

/-- Embedding of `mapColourSchemeRedWhite`. -/
def mapColourSchemeRedWhite (rgb : ColourRGB) (n : ℚ) (status : EscapeStatus) : ColourRGB :=
  let hsv : ColourHSV := { h := 0, s := 1, v := 1 }
  let hsv :=
    if status = .ESCAPED then
      let hsv := { hsv with s := 7 / 10 - fabs (fmod (n / 20) (14 / 10) - 7 / 10) }
      if hsv.s > 7 / 10 then { hsv with s := 7 / 10 } else hsv
    else hsv
  hsvToRGB rgb hsv

/-- The value of `1 << (7 - (unsigned int) n)`: the subtraction is made in
`unsigned int`, the shift in `int`. -/
def bitMask (n : ℚ) : Nat :=
  (1 <<< ((7 + 2 ^ UINT_BITS - toUInt n) % 2 ^ UINT_BITS)) % 2 ^ UINT_BITS

/-- The bitwise complement `~x` of an `int`, as a bit pattern of `UINT_BITS` bits. -/
def bitNot (x : Nat) : Nat :=
  2 ^ UINT_BITS - 1 - x

/-- Embedding of `mapColourSchemeBlackWhite`: the bit is set for an UNESCAPED
point and unset for an ESCAPED one; the result of the `int` operation is stored
back into the `uint8_t` channel. -/
def mapColourSchemeBlackWhite (rgb : ColourRGB) (n : ℚ) (status : EscapeStatus) : ColourRGB :=
  match status with
  | .UNESCAPED => { rgb with r := (rgb.r ||| bitMask n) % 2 ^ 8 }
  | .ESCAPED => { rgb with r := (rgb.r &&& bitNot (bitMask n)) % 2 ^ 8 }

/-- Embedding of `mapColourSchemeWhiteBlack`: the bit is unset for an UNESCAPED
point and set for an ESCAPED one. -/
def mapColourSchemeWhiteBlack (rgb : ColourRGB) (n : ℚ) (status : EscapeStatus) : ColourRGB :=
  match status with
  | .UNESCAPED => { rgb with r := (rgb.r &&& bitNot (bitMask n)) % 2 ^ 8 }
  | .ESCAPED => { rgb with r := (rgb.r ||| bitMask n) % 2 ^ 8 }

/-- The index `mapASCII` reads the charset at: the last index for an UNESCAPED
point; for an ESCAPED one `(int) fmod(CHAR_SCALE_MULTIPLIER * n, i)` with `i`
still holding the last index, stored into the `size_t` variable. -/
def mapASCIIIndex (n : ℚ) (status : EscapeStatus) : Nat :=
  let i : Nat := OUTPUT_TERMINAL_CHARSET_LENGTH - 1
  if status = .ESCAPED then
    wrap SIZE_BITS (truncate (fmod (CHAR_SCALE_MULTIPLIER * n) (i : ℚ)))
  else
    i

/-- Embedding of `mapASCII`: the character of the charset at the index, or
`none` when the index lies outside the string. -/
def mapASCII (_rgb : ColourRGB) (n : ℚ) (status : EscapeStatus) : Option Char :=
  OUTPUT_TERMINAL_CHARSET.data[mapASCIIIndex n status]?


/-- The constant `COLOUR_SCALE_MULTIPLIER`, a `static const int`. -/
def COLOUR_SCALE_MULTIPLIER : Nat := 20

/-- Embedding of `mapColourSchemeAll`.  Its parameter `n` is declared
`unsigned int`, so the product `COLOUR_SCALE_MULTIPLIER * n` is computed in
`unsigned int` (it wraps at that width) before `fmod` sees it.  The member `h`
of the local `hsv` is not named in the initialiser and starts at zero. -/
def mapColourSchemeAll (rgb : ColourRGB) (n : Nat) (status : EscapeStatus) : ColourRGB :=
  let hsv : ColourHSV := { h := 0, s := 6 / 10, v := 0 }
  let hsv :=
    if status = .ESCAPED then
      let hsv :=
        { hsv with h := fmod (((COLOUR_SCALE_MULTIPLIER * n) % 2 ^ UINT_BITS : Nat) : ℚ) 360 }
      { hsv with v := 8 / 10 }
    else hsv
  hsvToRGB rgb hsv

/-- Embedding of `mapColourSchemeGreyscale`: the grey value is cleared, then
computed from `n` when the status is UNESCAPED and raised to 30 when below. -/
def mapColourSchemeGreyscale (rgb : ColourRGB) (n : ℚ) (status : EscapeStatus) : ColourRGB :=
  let rgb := { rgb with r := 0 }
  if status = .UNESCAPED then
    let rgb := { rgb with r := toUInt8 (255 - fabs (fmod (n * (85 / 10)) 510 - 255)) }
    if rgb.r < 30 then { rgb with r := 30 } else rgb
  else rgb

/-- Embedding of `mapColourSchemeFire`. -/
def mapColourSchemeFire (rgb : ColourRGB) (n : ℚ) (status : EscapeStatus) : ColourRGB :=
  let hsv : ColourHSV := { h := 0, s := 85 / 100, v := 0 }
  let hsv :=
    if status = .ESCAPED then
      let hsv := { hsv with h := 50 - fabs (fmod (n * 2) 100 - 50) }
      { hsv with v := 85 / 100 }
    else hsv
  hsvToRGB rgb hsv

/-- Embedding of `mapColourSchemeAllVibrant`: here `n` is a `double`, and so is
the product `COLOUR_SCALE_MULTIPLIER * n`. -/
def mapColourSchemeAllVibrant (rgb : ColourRGB) (n : ℚ) (status : EscapeStatus) : ColourRGB :=
  let hsv : ColourHSV := { h := 0, s := 1, v := 0 }
  let hsv :=
    if status = .ESCAPED then
      let hsv := { hsv with h := fmod ((COLOUR_SCALE_MULTIPLIER : ℚ) * n) 360 }
      { hsv with v := 1 }
    else hsv
  hsvToRGB rgb hsv

/-- Embedding of `mapColourSchemeRedHot`. -/
def mapColourSchemeRedHot (rgb : ColourRGB) (n : ℚ) (status : EscapeStatus) : ColourRGB :=
  let hsv : ColourHSV := { h := 0, s := 1, v := 0 }
  let hsv :=
    if status = .ESCAPED then
      let n := 90 - fabs (fmod (n * 2) 180 - 90)
      if n ≤ 30 then
        { hsv with v := n / 30 }
      else
        let hsv := { hsv with h := n - 30 }
        { hsv with v := 1 }
    else hsv
  hsvToRGB rgb hsv

/-- Embedding of `mapColourSchemeMatrix`. -/
def mapColourSchemeMatrix (rgb : ColourRGB) (n : ℚ) (status : EscapeStatus) : ColourRGB :=
  let hsv : ColourHSV := { h := 120, s := 1, v := 0 }
  let hsv :=
    if status = .ESCAPED then
      { hsv with v := (90 - fabs (fmod (n * 2) 180 - 90)) / 90 }
    else hsv
  hsvToRGB rgb hsv

/-- The arguments `mapColourSchemeAll` finds in its parameters `n` and `status`
when `mapColour` calls it through `scheme->mapColour`.  The function declares
`unsigned int n` where the other nine mappers stored in the same pointer member
declare `double n`, and `mapColour` passes its `double n`: a pointer that fits
the nine is of another type than this function, the call through it makes no
conversion to `unsigned int`, and C does not say what the function then reads.
The two values are therefore inputs of the model, and nothing is assumed about
them.  (A status equal to neither enumerator takes the path of UNESCAPED in
`mapColourSchemeAll`, which only compares it with ESCAPED.) -/
structure AllArguments where
  n : Nat
  status : EscapeStatus
  deriving DecidableEq, Repr

/-- The function `mapASCII` seen as a mapper: the value returned is the
character (`none` for a read outside the charset); the pixel is not written. -/
def mapASCIIMapper (rgb : ColourRGB) (n : ℚ) (status : EscapeStatus) : Option Nat × ColourRGB :=
  ((mapASCII rgb n status).map Char.toNat, rgb)

/-- The call `scheme->mapColour(rgb, n, status)` through the function pointer:
the value returned by the mapper and the pixel after the call.

* `ascii` is the function the ASCII scheme points at: `mapColourSchemeASCII` is
  declared in colour.c, and stored in the scheme, but no function of that name
  is defined in the sources.
* `received` is what `mapColourSchemeAll` finds in its parameters `n` and
  `status` (see `AllArguments`); the other mappers declare `double n` and
  receive the arguments passed. -/
def callMapper (ascii : ColourRGB → ℚ → EscapeStatus → Option Nat × ColourRGB)
    (received : AllArguments) (f : MapColourFn) (rgb : ColourRGB) (n : ℚ)
    (status : EscapeStatus) : Option Nat × ColourRGB :=
  match f with
  | .mapColourSchemeAll => (some 0, mapColourSchemeAll rgb received.n received.status)
  | .mapColourSchemeBlackWhite => (some 0, mapColourSchemeBlackWhite rgb n status)
  | .mapColourSchemeWhiteBlack => (some 0, mapColourSchemeWhiteBlack rgb n status)
  | .mapColourSchemeGreyscale => (some 0, mapColourSchemeGreyscale rgb n status)
  | .mapColourSchemeRedWhite => (some 0, mapColourSchemeRedWhite rgb n status)
  | .mapColourSchemeFire => (some 0, mapColourSchemeFire rgb n status)
  | .mapColourSchemeAllVibrant => (some 0, mapColourSchemeAllVibrant rgb n status)
  | .mapColourSchemeRedHot => (some 0, mapColourSchemeRedHot rgb n status)
  | .mapColourSchemeMatrix => (some 0, mapColourSchemeMatrix rgb n status)
  | .mapColourSchemeASCII => ascii rgb n status

/-- Embedding of `mapColour`.  The local `n` is declared without an initialiser
and assigned only when the status is ESCAPED; `indeterminate` is the value it
holds otherwise.  The file-scope `smoothFactor` is passed in; `ascii` and
`received` are the inputs of `callMapper`.  The result is the value returned
and the pixel after the call. -/
def mapColour (smoothFactor indeterminate : ℚ)
    (ascii : ColourRGB → ℚ → EscapeStatus → Option Nat × ColourRGB) (received : AllArguments)
    (rgb : ColourRGB) (scheme : ColourScheme) (iterations : Nat) (status : EscapeStatus) :
    Option Nat × ColourRGB :=
  let n : ℚ := if status = .ESCAPED then smooth smoothFactor iterations else indeterminate
  callMapper ascii received scheme.mapColour rgb n status

/-! ## image.c: initialiseImage -/

/-- The bytes of an ASCII string, as `fprintf` with the `%s` conversion writes them. -/
def cstr (s : String) : List Nat :=
  s.data.map Char.toNat

/-- The buffer size `IMAGE_HEADER_LEN_MAX`. -/
def IMAGE_HEADER_LEN_MAX : Nat := 128

/-- The library call `snprintf(buf, size, ...)` applied to the fully formatted
text: at most `size - 1` characters are stored (the last byte is the NUL). -/
def snprintf (size : Nat) (formatted : String) : String :=
  ⟨formatted.data.take (size - 1)⟩

/-- The `%zu` conversion: the decimal digits of an unsigned value. -/
def fmtZu (n : Nat) : String :=
  Nat.repr n

/-- Embedding of `initialiseImage`.  `opened` tells whether `fopen(filepath, "wb")`
succeeded; a stream opened with mode `"wb"` starts empty.  The result is the return
value and the updated plot context. -/
def initialiseImage (p : PlotCTX) (opened : Bool) : Nat × PlotCTX :=
  if !opened then
    (1, { p with file := none })
  else
    let p := { p with file := some [] }
    if p.output = .OUTPUT_PNM then
      match p.colour.depth with
      | .BIT_DEPTH_1 =>
        let header := snprintf IMAGE_HEADER_LEN_MAX
          ("P4 " ++ fmtZu p.width ++ " " ++ fmtZu p.height ++ " ")
        (0, { p with file := p.file.map (fun bytes => bytes ++ cstr header) })
      | .BIT_DEPTH_8 =>
        let header := snprintf IMAGE_HEADER_LEN_MAX
          ("P5 " ++ fmtZu p.width ++ " " ++ fmtZu p.height ++ " 255 ")
        (0, { p with file := p.file.map (fun bytes => bytes ++ cstr header) })
      | .BIT_DEPTH_24 =>
        let header := snprintf IMAGE_HEADER_LEN_MAX
          ("P6 " ++ fmtZu p.width ++ " " ++ fmtZu p.height ++ " 255 ")
        (0, { p with file := p.file.map (fun bytes => bytes ++ cstr header) })
      | .BIT_DEPTH_ASCII => (1, p)
    else
      (0, p)

/-! ## image.c: blockToImage and the band loop -/

/-- The fields of `BlockCTX` (array.h) the band loop reads: the number of full
bands, the rows of a full band and the remainder rows. -/
structure BlockCTX where
  count : Nat
  rows : Nat
  remainder : Nat
  deriving DecidableEq, Repr

/-- The fields of `Block` the band loop writes: the band id and its row count. -/
structure Block where
  id : Nat
  rows : Nat
  deriving DecidableEq, Repr

/-- The library call `fwrite(ptr + offset, 1, count, stream)`: appends `count`
bytes read from the buffer to the stream (a NULL stream stays NULL). -/
def fwrite (array : Nat → Nat) (offset count : Nat) (file : Option (List Nat)) :
    Option (List Nat) :=
  file.map (fun bytes => bytes ++ (List.range count).map (fun j => array (offset + j)))

/-- The line terminator written after each ASCII row: one line-feed byte. -/
def LINE_TERMINATOR : List Nat := [10]

/-- Embedding of `blockToImage`: `array` is the band buffer (byte at each
offset), `block` the band to write.  For a depth other than ASCII one `fwrite`
of `arraySize` bytes is made, where `arraySize` is the truncated product of
`arrayLength` and the `double` pixel size; for ASCII each of the `rows` rows is
written as `width` bytes followed by the line terminator. -/
def blockToImage (p : PlotCTX) (array : Nat → Nat) (block : Block) : PlotCTX :=
  let arrayLength : Nat := (block.rows * p.width) % 2 ^ SIZE_BITS
  let pixelSize : ℚ :=
    if p.colour.depth = .BIT_DEPTH_ASCII then 1 else (p.colour.depth.bits : ℚ) / 8
  let arraySize : Nat := toSizeT ((arrayLength : ℚ) * pixelSize)
  if p.colour.depth ≠ .BIT_DEPTH_ASCII then
    { p with file := fwrite array 0 arraySize p.file }
  else
    let writeRow (file : Option (List Nat)) (i : Nat) : Option (List Nat) :=
      (fwrite array (i * p.width) p.width file).map (fun bytes => bytes ++ LINE_TERMINATOR)
    { p with file := (List.range block.rows).foldl writeRow p.file }

/-- Embedding of the band loop shared by `imageOutput` and `imageOutputMaster`
(`for (block->id = 0; block->id <= block->ctx->count; ++(block->id))`).

* `idBits` is the width of the unsigned band counter `block->id`, whose
  declaration (array.h) is absent; the increment wraps at that width.
* `compute block` is the work done on a band before it is written: the thread
  pool of `imageOutput` or the `listener` of `imageOutputMaster`.  It yields the
  band buffer, or `none` when a thread could not be created or joined (or the
  listener failed), in which case the function returns 1.
* `fuel` bounds the number of loop tests; `none` means it ran out.

The result is the return value, the plot context (with the stream written so
far) and the blocks handed to `blockToImage`, in call order. -/
def imageOutputLoop (idBits : Nat) (ctx : BlockCTX) (compute : Block → Option (Nat → Nat)) :
    Nat → Nat → PlotCTX → List Block → Option (Nat × PlotCTX × List Block)
  | 0, _, _, _ => none
  | fuel + 1, id, p, passed =>
    if id ≤ ctx.count then
      if id = ctx.count ∧ ctx.remainder = 0 then
        some (0, p, passed)
      else
        let block : Block :=
          { id := id, rows := if id = ctx.count then ctx.remainder else ctx.rows }
        match compute block with
        | none => some (1, p, passed)
        | some array =>
          imageOutputLoop idBits ctx compute fuel ((id + 1) % 2 ^ idBits)
            (blockToImage p array block) (passed ++ [block])
    else
      some (0, p, passed)

/-- The band loop of `imageOutputMaster`, the same statement as in
`imageOutput` with `listener` in place of the thread pool. -/
def imageOutputMasterLoop (idBits : Nat) (ctx : BlockCTX)
    (listener : Block → Option (Nat → Nat)) :
    Nat → Nat → PlotCTX → List Block → Option (Nat × PlotCTX × List Block) :=
  imageOutputLoop idBits ctx listener

/-- The block context the memory manager sets up for an image of `height` rows
cut into bands of `rows` rows. -/
def blockCTX (height rows : Nat) : BlockCTX :=
  { count := height / rows, rows := rows, remainder := height % rows }

/-- The bytes appended to the stream between two states of a plot context. -/
def bytesWritten (before after : PlotCTX) : Nat :=
  (after.file.getD []).length - (before.file.getD []).length

/-- A whole render of the band loop from an open, empty-so-far stream position:
the number of bytes `blockToImage` appended over all bands, or `none` when the
loop did not finish with return value 0 within `fuel` tests. -/
def renderBytes (idBits : Nat) (p : PlotCTX) (rows : Nat)
    (compute : Block → Option (Nat → Nat)) (fuel : Nat) : Option Nat :=
  match imageOutputLoop idBits (blockCTX p.height rows) compute fuel 0 p [] with
  | some (0, q, _) => some (bytesWritten p q)
  | _ => none

/-! ## image.c: imageOutput and imageRowOutput -/

/-- The allocating calls made by `imageOutput` and `imageRowOutput`, named
after the function called (`mallocRow` is `malloc(rowSize)` and
`mallocWriteBuffer` is `malloc(rowSize + 6)`). -/
inductive AllocCall where
  | createArrayCTX
  | mallocArray
  | createThreads
  | mallocRow
  | createSlaveThreads
  | mallocWriteBuffer
  deriving DecidableEq, Repr

/-- The outcome of the allocating calls, which live outside image.c: whether
each returns a non-NULL pointer, and for `mallocArray` the block context of the
block it returns. -/
structure Allocator where
  createArrayCTX : Bool
  mallocArray : Option BlockCTX
  createThreads : Bool
  mallocRow : Bool
  createSlaveThreads : Bool
  mallocWriteBuffer : Bool

/-- The `switch (precision)` of `imageOutput`: the routine stored in
`genFractal`, or `none` when the `default` label returns 1.  `mpPrec` tells
whether the build defines `MP_PREC`. -/
def imageOutputKernel (mpPrec : Bool) (precision : PrecisionMode) : Option FractalKernel :=
  match precision with
  | .STD_PRECISION => some .generateFractal
  | .EXT_PRECISION => some .generateFractalExt
  | .MUL_PRECISION => if mpPrec then some .generateFractalMP else none
  | .outOfRange _ => none

/-- Embedding of `imageOutput`.  `run kernel block` is the thread pool running
the selected routine on a band (`none` when a thread cannot be created or
joined).  The result is the return value, the plot context and the allocating
calls made, in order; `none` means the band loop ran out of `fuel`. -/
def imageOutput (mpPrec : Bool) (precision : PrecisionMode) (al : Allocator) (idBits : Nat)
    (run : FractalKernel → Block → Option (Nat → Nat)) (fuel : Nat) (p : PlotCTX) :
    Option (Nat × PlotCTX × List AllocCall) :=
  match imageOutputKernel mpPrec precision with
  | none => some (1, p, [])
  | some genFractal =>
    if !al.createArrayCTX then
      some (1, p, [.createArrayCTX])
    else
      match al.mallocArray with
      | none => some (1, p, [.createArrayCTX, .mallocArray])
      | some ctx =>
        if !al.createThreads then
          some (1, p, [.createArrayCTX, .mallocArray, .createThreads])
        else
          (imageOutputLoop idBits ctx (run genFractal) fuel 0 p []).map
            (fun res => (res.1, res.2.1, [.createArrayCTX, .mallocArray, .createThreads]))

/-- The `switch (precision)` of `imageRowOutput`: the routine stored in
`genFractalRow`, or `none` when the `default` label returns 1. -/
def imageRowOutputKernel (mpPrec : Bool) (precision : PrecisionMode) : Option FractalKernel :=
  match precision with
  | .STD_PRECISION => some .generateFractalRow
  | .EXT_PRECISION => some .generateFractalRow
  | .MUL_PRECISION => if mpPrec then some .generateFractalRow else none
  | .outOfRange _ => none

/-- The variable `rowSize` of `imageRowOutput`: `width * sizeof(char)` for the
ASCII depth, else `width * depth / 8`, in `size_t` arithmetic. -/
def rowSize (p : PlotCTX) : Nat :=
  if p.colour.depth = .BIT_DEPTH_ASCII then
    (p.width * 1) % 2 ^ SIZE_BITS
  else
    ((p.width * p.colour.depth.bits) % 2 ^ SIZE_BITS) / 8

/-- A block of `size` bytes as `malloc` returns it: the block is not cleared,
and `heap` tells what each of its bytes holds. -/
def malloc (heap : Nat → Nat) (size : Nat) : List Nat :=
  (List.range size).map heap

/-- Writing the bytes `data` into a buffer from `offset` on.  The buffer is the
list of its bytes, so its size is known: `none` stands for a write that runs
past the end of the buffer, for which C defines no result. -/
def store (buffer : List Nat) (offset : Nat) (data : List Nat) : Option (List Nat) :=
  if offset + data.length ≤ buffer.length then
    some (buffer.take offset ++ data ++ buffer.drop (offset + data.length))
  else
    none

/-- The call `sprintf(buffer, "%zu", value)`: the decimal digits and the
terminating NUL are written from the start of the buffer, however many they
are; `none` when they do not fit. -/
def sprintfZu (buffer : List Nat) (value : Nat) : Option (List Nat) :=
  store buffer 0 (cstr (fmtZu value) ++ [0])

/-- The call `memcpy(dst + offset, src, count)`. -/
def memcpy (dst : List Nat) (offset : Nat) (src : Nat → Nat) (count : Nat) :
    Option (List Nat) :=
  store dst offset ((List.range count).map src)

/-- The call `memset(buffer, value, count)`. -/
def memset (buffer : List Nat) (value count : Nat) : Option (List Nat) :=
  store buffer 0 (List.replicate count value)

/-- The first `count` bytes of a buffer, as `writeSocket` is handed them; `none`
for a read past the end of the buffer. -/
def readBytes (buffer : List Nat) (count : Nat) : Option (List Nat) :=
  if count ≤ buffer.length then some (buffer.take count) else none

/-- The two statements of `imageRowOutput` that fill the write buffer for row
`row`: `sprintf(writeBuffer, "%zu", row.row)` and
`memcpy(writeBuffer + 6, array->array, rowSize)`. -/
def fillWriteBuffer (p : PlotCTX) (row : Nat) (rowArray : Nat → Nat) (writeBuffer : List Nat) :
    Option (List Nat) :=
  (sprintfZu writeBuffer row).bind (fun buffer => memcpy buffer 6 rowArray (rowSize p))

/-- The message `imageRowOutput` hands to `writeSocket` for row `row`: the
first `rowSize + 6` bytes of the filled write buffer; `none` when filling or
sending it leaves the buffer. -/
def rowMessage (p : PlotCTX) (row : Nat) (rowArray : Nat → Nat) (writeBuffer : List Nat) :
    Option (List Nat) :=
  (fillWriteBuffer p row rowArray writeBuffer).bind
    (fun buffer => readBytes buffer ((rowSize p + 6) % 2 ^ SIZE_BITS))

/-- What the master does during one pass of the `while (1)` loop of
`imageRowOutput`: the values returned by the four socket calls and the row
number `stringToUIntMax` stores in `row.row`. -/
structure Exchange where
  pingRet : Int
  requestRet : Int
  row : Nat
  sendRet : Int
  ackRet : Int

/-- Embedding of the `while (1)` loop of `imageRowOutput`, one `Exchange` for
each pass.  `run row` is the thread pool computing the row into the row array
(`none` when a thread cannot be created or joined).  `writeBuffer` holds the
bytes of the write buffer and `sent` the messages handed to `writeSocket` so
far.  The result is the return value and the messages.  `none` means that no
result is defined: the script of exchanges ended while the loop was still
running, or a pass wrote or read past the end of the write buffer. -/
def imageRowOutputLoop (p : PlotCTX) (run : Nat → Option (Nat → Nat)) :
    List Exchange → List Nat → List (List Nat) → Option (Nat × List (List Nat))
  | [], _, _ => none
  | e :: rest, writeBuffer, sent =>
    if e.pingRet = 0 then some (0, sent)
    else if e.pingRet < 0 ∨ e.pingRet ≠ 1 then some (1, sent)
    else if e.requestRet = 0 then some (0, sent)
    else if e.requestRet < 0 then some (1, sent)
    else
      match run e.row with
      | none => some (1, sent)
      | some rowArray =>
        let size := (rowSize p + 6) % 2 ^ SIZE_BITS
        match fillWriteBuffer p e.row rowArray writeBuffer with
        | none => none
        | some filled =>
          match readBytes filled size, memset filled 0 size with
          | some message, some cleared =>
            let sent := sent ++ [message]
            if e.sendRet = 0 then some (0, sent)
            else if e.sendRet < 0 ∨ e.sendRet ≠ (size : Int) then some (1, sent)
            else if e.ackRet = 0 then some (0, sent)
            else if e.ackRet < 0 then some (1, sent)
            else imageRowOutputLoop p run rest cleared sent
          | _, _ => none

/-- Embedding of `imageRowOutput`.  The write buffer is `malloc(rowSize + 6)`,
and `heap` is what the freshly allocated bytes hold.  The result is the return
value, the messages handed to `writeSocket` and the allocating calls made, in
order. -/
def imageRowOutput (mpPrec : Bool) (precision : PrecisionMode) (al : Allocator) (p : PlotCTX)
    (run : FractalKernel → Nat → Option (Nat → Nat)) (heap : Nat → Nat)
    (exchanges : List Exchange) : Option (Nat × List (List Nat) × List AllocCall) :=
  match imageRowOutputKernel mpPrec precision with
  | none => some (1, [], [])
  | some genFractalRow =>
    if !al.createArrayCTX then
      some (1, [], [.createArrayCTX])
    else if !al.mallocRow then
      some (1, [], [.createArrayCTX, .mallocRow])
    else if !al.createSlaveThreads then
      some (1, [], [.createArrayCTX, .mallocRow, .createSlaveThreads])
    else if !al.mallocWriteBuffer then
      some (1, [], [.createArrayCTX, .mallocRow, .createSlaveThreads, .mallocWriteBuffer])
    else
      (imageRowOutputLoop p (run genFractalRow) exchanges
          (malloc heap ((rowSize p + 6) % 2 ^ SIZE_BITS)) []).map
        (fun res => (res.1, res.2,
          [.createArrayCTX, .mallocRow, .createSlaveThreads, .mallocWriteBuffer]))

/-- Whether a byte is an ASCII decimal digit. -/
def isDigitByte (b : Nat) : Bool :=
  48 ≤ b && b ≤ 57

/-- Reading a decimal number from the front of a byte string: digits are
accumulated until the first byte that is not a digit (or the end). -/
def parseDecAux (acc : Nat) : List Nat → Nat
  | [] => acc
  | b :: rest => if isDigitByte b then parseDecAux (acc * 10 + (b - 48)) rest else acc

/-- The row number read back from the 6-byte prefix of a message. -/
def parsePrefix (message : List Nat) : Nat :=
  parseDecAux 0 (message.take 6)

/-! ## Specification devices for the band loop -/

/-- The `k` full bands with ids `id`, `id + 1`, ... of a block context. -/
def fullBands (ctx : BlockCTX) (id k : Nat) : List Block :=
  (List.range' id k).map (fun i => { id := i, rows := ctx.rows })

/-- The final band of the remainder rows, present when the remainder is not 0. -/
def lastBand (ctx : BlockCTX) : List Block :=
  if ctx.remainder = 0 then [] else [{ id := ctx.count, rows := ctx.remainder }]

/-- The stream after `blockToImage` has been called on each block in turn, the
buffer of each block being the one `compute` produced for it. -/
def writeBands (compute : Block → Option (Nat → Nat)) (p : PlotCTX) (blocks : List Block) :
    PlotCTX :=
  blocks.foldl (fun q b => blockToImage q ((compute b).getD (fun _ => 0)) b) p

/-- One ASCII row as `blockToImage` writes it: the `width` bytes of row `i` of
the buffer followed by the line terminator. -/
def asciiRow (p : PlotCTX) (array : Nat → Nat) (i : Nat) : List Nat :=
  (List.range p.width).map (fun j => array (i * p.width + j)) ++ LINE_TERMINATOR

/-- The bytes `blockToImage` appends for a block: the first `arraySize` bytes of
the buffer for a depth other than ASCII, the rows each followed by the line
terminator for ASCII. -/
def blockBytes (p : PlotCTX) (array : Nat → Nat) (block : Block) : List Nat :=
  if p.colour.depth ≠ .BIT_DEPTH_ASCII then
    (List.range (toSizeT ((((block.rows * p.width) % 2 ^ SIZE_BITS : Nat) : ℚ)
      * ((p.colour.depth.bits : ℚ) / 8)))).map (fun j => array (0 + j))
  else
    (List.range block.rows).flatMap (asciiRow p array)

/-- The ASCII rule in the words of the specification: for an escaped point the
index into the charset is the floor of `(0.3 * n) mod L` with `L = 10`, the full
length of the charset. -/
def specASCIIIndex (n : ℚ) : Nat :=
  (⌊fmod (CHAR_SCALE_MULTIPLIER * n) 10⌋).toNat

/-- The bytes of the 6-byte prefix that follow the `len` digits of the row
number: the terminating NUL first, then what the buffer held there. -/
def prefixPad (writeBuffer : List Nat) (len : Nat) : List Nat :=
  (0 :: writeBuffer.drop (len + 1)).take (6 - len)

/-! # Theorems -/

/-! ## Header written by initialiseImage -/

/-- A formatted text shorter than the buffer is stored whole by `snprintf`. -/
theorem snprintf_of_short (size : Nat) (s : String) (h : s.length < size) :
    snprintf size s = s := by
  unfold snprintf
  have hlen : s.data.length ≤ size - 1 := by
    have : s.data.length = s.length := rfl
    omega
  rw [List.take_of_length_le hlen]

/-- The `%zu` text of a `size_t` value has at most twenty digits. -/
theorem fmtZu_length (n : Nat) (h : n < 2 ^ SIZE_BITS) : (fmtZu n).length ≤ 20 := by
  unfold fmtZu
  refine Nat.repr_length n 20 (by norm_num) (lt_of_lt_of_le h ?_)
  norm_num [SIZE_BITS]

/-- The three PNM headers fit the header buffer. -/
theorem header_fits (magic tail : String) (W H : Nat) (hW : W < 2 ^ SIZE_BITS)
    (hH : H < 2 ^ SIZE_BITS) (hm : magic.length ≤ 3) (ht : tail.length ≤ 5) :
    snprintf IMAGE_HEADER_LEN_MAX (magic ++ fmtZu W ++ " " ++ fmtZu H ++ tail)
      = magic ++ fmtZu W ++ " " ++ fmtZu H ++ tail := by
  apply snprintf_of_short
  have h1 := fmtZu_length W hW
  have h2 := fmtZu_length H hH
  have h3 : (" " : String).length = 1 := rfl
  simp only [String.length_append, IMAGE_HEADER_LEN_MAX, h3]
  omega

/-- C1: for every width and height (values of `size_t`), when the file opens,
`initialiseImage` with PNM output returns 0 and the stream holds exactly
"P4 W H " for 1-bit depth, "P5 W H 255 " for 8-bit depth and "P6 W H 255 " for
24-bit depth, with W and H in decimal; when the output is not PNM it returns 0
and writes nothing, and with the ASCII depth no byte is written either. -/
theorem initialiseImage_header (p : PlotCTX) (hW : p.width < 2 ^ SIZE_BITS)
    (hH : p.height < 2 ^ SIZE_BITS) :
    (p.output = .OUTPUT_PNM → p.colour.depth = .BIT_DEPTH_1 →
      initialiseImage p true = (0, { p with file := some (cstr ("P4 " ++ Nat.repr p.width ++ " " ++ Nat.repr p.height ++ " ")) })) ∧
    (p.output = .OUTPUT_PNM → p.colour.depth = .BIT_DEPTH_8 →
      initialiseImage p true = (0, { p with file := some (cstr ("P5 " ++ Nat.repr p.width ++ " " ++ Nat.repr p.height ++ " 255 ")) })) ∧
    (p.output = .OUTPUT_PNM → p.colour.depth = .BIT_DEPTH_24 →
      initialiseImage p true = (0, { p with file := some (cstr ("P6 " ++ Nat.repr p.width ++ " " ++ Nat.repr p.height ++ " 255 ")) })) ∧
    (p.output ≠ .OUTPUT_PNM → initialiseImage p true = (0, { p with file := some [] })) ∧
    (p.colour.depth = .BIT_DEPTH_ASCII → (initialiseImage p true).2.file = some []) := by
  have h4 := header_fits "P4 " " " p.width p.height hW hH (by decide) (by decide)
  have h5 := header_fits "P5 " " 255 " p.width p.height hW hH (by decide) (by decide)
  have h6 := header_fits "P6 " " 255 " p.width p.height hW hH (by decide) (by decide)
  simp only [fmtZu] at h4 h5 h6
  refine ⟨?_, ?_, ?_, ?_, ?_⟩
  · intro ho hd
    simp [initialiseImage, ho, hd, h4, fmtZu]
  · intro ho hd
    simp [initialiseImage, ho, hd, h5, fmtZu]
  · intro ho hd
    simp [initialiseImage, ho, hd, h6, fmtZu]
  · intro ho
    simp [initialiseImage, ho]
  · intro hd
    by_cases ho : p.output = .OUTPUT_PNM <;> simp [initialiseImage, ho, hd]

/-- C1 at 640x480, 24-bit PNM: the header is "P6 640 480 255 ". -/
theorem initialiseImage_header_witness :
    (640 < 2 ^ SIZE_BITS ∧ 480 < 2 ^ SIZE_BITS) ∧
    initialiseImage ⟨640, 480, .OUTPUT_PNM, COLOUR_SCHEME_DEFAULT, none⟩ true
      = (0, ⟨640, 480, .OUTPUT_PNM, COLOUR_SCHEME_DEFAULT, some (cstr "P6 640 480 255 ")⟩) :=
  ⟨⟨by decide, by decide⟩,
   (initialiseImage_header ⟨640, 480, .OUTPUT_PNM, COLOUR_SCHEME_DEFAULT, none⟩
      (by decide) (by decide)).2.2.1 rfl rfl⟩

/-! ## Scheme table of initialiseColourScheme -/

/-- C2: each of the ten named scheme kinds keeps its kind and gets the depth and
mapper of the table (24-bit for ALL, ALL_VIBRANT, RED_WHITE, FIRE, RED_HOT and
MATRIX, 8-bit for GREYSCALE, 1-bit for BLACK_WHITE and WHITE_BLACK, the ASCII
depth for ASCII), whatever the scheme held before; a kind value outside the
enumeration yields (ALL, 24-bit, ALL mapper). -/
theorem initialiseColourScheme_table (scheme : ColourScheme) :
    initialiseColourScheme scheme .COLOUR_SCHEME_TYPE_ALL
      = ⟨.COLOUR_SCHEME_TYPE_ALL, .BIT_DEPTH_24, .mapColourSchemeAll⟩ ∧
    initialiseColourScheme scheme .COLOUR_SCHEME_TYPE_ALL_VIBRANT
      = ⟨.COLOUR_SCHEME_TYPE_ALL_VIBRANT, .BIT_DEPTH_24, .mapColourSchemeAllVibrant⟩ ∧
    initialiseColourScheme scheme .COLOUR_SCHEME_TYPE_RED_WHITE
      = ⟨.COLOUR_SCHEME_TYPE_RED_WHITE, .BIT_DEPTH_24, .mapColourSchemeRedWhite⟩ ∧
    initialiseColourScheme scheme .COLOUR_SCHEME_TYPE_FIRE
      = ⟨.COLOUR_SCHEME_TYPE_FIRE, .BIT_DEPTH_24, .mapColourSchemeFire⟩ ∧
    initialiseColourScheme scheme .COLOUR_SCHEME_TYPE_RED_HOT
      = ⟨.COLOUR_SCHEME_TYPE_RED_HOT, .BIT_DEPTH_24, .mapColourSchemeRedHot⟩ ∧
    initialiseColourScheme scheme .COLOUR_SCHEME_TYPE_MATRIX
      = ⟨.COLOUR_SCHEME_TYPE_MATRIX, .BIT_DEPTH_24, .mapColourSchemeMatrix⟩ ∧
    initialiseColourScheme scheme .COLOUR_SCHEME_TYPE_GREYSCALE
      = ⟨.COLOUR_SCHEME_TYPE_GREYSCALE, .BIT_DEPTH_8, .mapColourSchemeGreyscale⟩ ∧
    initialiseColourScheme scheme .COLOUR_SCHEME_TYPE_BLACK_WHITE
      = ⟨.COLOUR_SCHEME_TYPE_BLACK_WHITE, .BIT_DEPTH_1, .mapColourSchemeBlackWhite⟩ ∧
    initialiseColourScheme scheme .COLOUR_SCHEME_TYPE_WHITE_BLACK
      = ⟨.COLOUR_SCHEME_TYPE_WHITE_BLACK, .BIT_DEPTH_1, .mapColourSchemeWhiteBlack⟩ ∧
    initialiseColourScheme scheme .COLOUR_SCHEME_TYPE_ASCII
      = ⟨.COLOUR_SCHEME_TYPE_ASCII, .BIT_DEPTH_ASCII, .mapColourSchemeASCII⟩ ∧
    (∀ raw : Int, initialiseColourScheme scheme (.outOfRange raw)
      = ⟨.COLOUR_SCHEME_TYPE_ALL, .BIT_DEPTH_24, .mapColourSchemeAll⟩) :=
  ⟨rfl, rfl, rfl, rfl, rfl, rfl, rfl, rfl, rfl, rfl, fun _ => rfl⟩

/-! ## The band loop -/

/-- The loop started at band `id` with `k` full bands to go runs to completion:
it returns 0 having passed the `k` full bands and then the remainder band to
`blockToImage`, provided the counter can step past the band count. -/
theorem imageOutputLoop_run (idBits : Nat) (ctx : BlockCTX)
    (compute : Block → Option (Nat → Nat)) (hok : ∀ b, (compute b).isSome)
    (hfit : ctx.count + 1 < 2 ^ idBits) :
    ∀ (k id fuel : Nat) (p : PlotCTX) (passed : List Block),
      id + k = ctx.count → k + 2 ≤ fuel →
      imageOutputLoop idBits ctx compute fuel id p passed
        = some (0, writeBands compute p (fullBands ctx id k ++ lastBand ctx),
            passed ++ (fullBands ctx id k ++ lastBand ctx)) := by
  intro k
  induction k with
  | zero =>
    intro id fuel p passed hid hfuel
    obtain ⟨f, rfl⟩ : ∃ f, fuel = f + 2 := ⟨fuel - 2, by omega⟩
    have hid' : id = ctx.count := by omega
    subst hid'
    by_cases hrem : ctx.remainder = 0
    · simp [imageOutputLoop, hrem, fullBands, lastBand, writeBands]
    · obtain ⟨arr, harr⟩ := Option.isSome_iff_exists.mp
        (hok { id := ctx.count, rows := ctx.remainder })
      have hmod : (ctx.count + 1) % 2 ^ idBits = ctx.count + 1 := Nat.mod_eq_of_lt hfit
      simp [imageOutputLoop, hrem, fullBands, lastBand, writeBands, harr, hmod]
  | succ k ih =>
    intro id fuel p passed hid hfuel
    obtain ⟨f, rfl⟩ : ∃ f, fuel = f + 1 := ⟨fuel - 1, by omega⟩
    have hlt : id < ctx.count := by omega
    obtain ⟨arr, harr⟩ := Option.isSome_iff_exists.mp (hok { id := id, rows := ctx.rows })
    have hmod : (id + 1) % 2 ^ idBits = id + 1 := Nat.mod_eq_of_lt (by omega)
    have hstep := ih (id + 1) f (blockToImage p arr { id := id, rows := ctx.rows })
      (passed ++ [{ id := id, rows := ctx.rows }]) (by omega) (by omega)
    have hne : id ≠ ctx.count := by omega
    simp only [imageOutputLoop, hlt.le, hne, if_true, false_and, if_false, harr, hmod, hstep]
    simp [fullBands, List.range'_succ, writeBands, harr]

/-- The rows of the full bands and the remainder band add up to the height. -/
theorem bands_rows_sum (H R : Nat) :
    ((fullBands (blockCTX H R) 0 (H / R) ++ lastBand (blockCTX H R)).map (fun b => b.rows)).sum
      = H := by
  have hfull : ∀ n, ((fullBands (blockCTX H R) 0 n).map (fun b => b.rows)).sum = n * R := by
    intro n
    simp [fullBands, blockCTX, Function.comp_def]
  rw [List.map_append, List.sum_append, hfull]
  unfold lastBand blockCTX
  by_cases hrem : H % R = 0
  · simp only [hrem, if_true, List.map_nil, List.sum_nil]
    have := Nat.div_add_mod H R
    rw [hrem] at this
    rw [Nat.mul_comm]
    omega
  · simp only [hrem, if_false, List.map_cons, List.map_nil, List.sum_cons, List.sum_nil]
    have := Nat.div_add_mod H R
    rw [Nat.mul_comm]
    omega

/-- C3: for every height H and band height R with 1 <= R <= H, with the block
context holding rows = R, count = H / R and remainder = H mod R, and a band
counter that can step past the band count, the loop of `imageOutput` (and the
identical loop of `imageOutputMaster`) returns 0 after handing to
`blockToImage`, once each and in this order, the bands 0, 1, ..., count - 1 of R
rows each, followed by one band of the remainder rows exactly when the remainder
is not 0; the band ids ascend from 0 and the row counts sum to H. -/
theorem imageOutput_band_loop (idBits H R : Nat) (p : PlotCTX)
    (compute : Block → Option (Nat → Nat)) (_hR : 1 ≤ R) (_hRH : R ≤ H)
    (hfit : H / R + 1 < 2 ^ idBits) (hok : ∀ b, (compute b).isSome)
    (fuel : Nat) (hfuel : H / R + 2 ≤ fuel) :
    ∃ passed : List Block,
      imageOutputLoop idBits (blockCTX H R) compute fuel 0 p []
        = some (0, writeBands compute p passed, passed) ∧
      imageOutputMasterLoop idBits (blockCTX H R) compute fuel 0 p []
        = some (0, writeBands compute p passed, passed) ∧
      passed = (List.range (H / R)).map (fun i => ({ id := i, rows := R } : Block))
        ++ (if H % R = 0 then [] else [{ id := H / R, rows := H % R }]) ∧
      passed.map (fun b => b.id) = List.range passed.length ∧
      (∀ b ∈ passed, b.id < H / R → b.rows = R) ∧
      (H % R ≠ 0 ↔ ∃ b ∈ passed, H / R ≤ b.id) ∧
      (∀ b ∈ passed, H / R ≤ b.id → b = { id := H / R, rows := H % R }) ∧
      (passed.map (fun b => b.rows)).sum = H := by
  have hrun := imageOutputLoop_run idBits (blockCTX H R) compute hok hfit (H / R) 0 fuel p []
    (by simp [blockCTX]) hfuel
  have hshape : fullBands (blockCTX H R) 0 (H / R) ++ lastBand (blockCTX H R)
      = (List.range (H / R)).map (fun i => ({ id := i, rows := R } : Block))
        ++ (if H % R = 0 then [] else [{ id := H / R, rows := H % R }]) := by
    simp [fullBands, lastBand, blockCTX, List.range_eq_range']
  refine ⟨_, ?_, ?_, hshape, ?_, ?_, ?_, ?_, bands_rows_sum H R⟩
  · simpa using hrun
  · simpa [imageOutputMasterLoop] using hrun
  · rw [hshape]
    by_cases hrem : H % R = 0
    · simp [hrem, Function.comp_def]
    · simp [hrem, Function.comp_def, List.range_succ]
  · rw [hshape]
    intro b hb hlt
    by_cases hrem : H % R = 0
    · simp [hrem] at hb
      obtain ⟨i, _, rfl⟩ := hb
      rfl
    · simp [hrem] at hb
      rcases hb with ⟨i, _, rfl⟩ | rfl
      · rfl
      · simp at hlt
  · rw [hshape]
    by_cases hrem : H % R = 0
    · simp [hrem]
    · rw [if_neg hrem]
      exact ⟨fun _ => ⟨{ id := H / R, rows := H % R }, by simp, le_refl _⟩, fun _ => hrem⟩
  · rw [hshape]
    intro b hb hge
    by_cases hrem : H % R = 0
    · simp [hrem] at hb
      obtain ⟨i, hi, rfl⟩ := hb
      simp at hge
      omega
    · simp [hrem] at hb
      rcases hb with ⟨i, hi, rfl⟩ | rfl
      · simp at hge
        omega
      · rfl

/-- C3 at a 10-row image cut into bands of 3 rows with a 32-bit counter: bands
0, 1, 2 of 3 rows and band 3 of 1 row. -/
theorem imageOutput_band_loop_witness :
    ∃ passed : List Block,
      imageOutputLoop 32 (blockCTX 10 3) (fun _ => some (fun _ => 0)) 5 0
          ⟨4, 10, .OUTPUT_PNM, COLOUR_SCHEME_DEFAULT, some []⟩ []
        = some (0, writeBands (fun _ => some (fun _ => 0))
            ⟨4, 10, .OUTPUT_PNM, COLOUR_SCHEME_DEFAULT, some []⟩ passed, passed) ∧
      passed = [⟨0, 3⟩, ⟨1, 3⟩, ⟨2, 3⟩, ⟨3, 1⟩] ∧
      (passed.map (fun b => b.rows)).sum = 10 := by
  obtain ⟨passed, h1, _, h3, _, _, _, _, h8⟩ :=
    imageOutput_band_loop 32 10 3 ⟨4, 10, .OUTPUT_PNM, COLOUR_SCHEME_DEFAULT, some []⟩
      (fun _ => some (fun _ => 0)) (by decide) (by decide) (by decide) (fun _ => rfl) 5
      (by decide)
  exact ⟨passed, h1, by rw [h3]; decide, h8⟩

/-! ## Bytes appended by blockToImage -/

/-- The ASCII row loop of `blockToImage` appends the rows in order. -/
theorem asciiRows_foldl (p : PlotCTX) (array : Nat → Nat) (n : Nat) (f : List Nat) :
    (List.range n).foldl
        (fun file i =>
          (fwrite array (i * p.width) p.width file).map (fun bytes => bytes ++ LINE_TERMINATOR))
        (some f)
      = some (f ++ (List.range n).flatMap (asciiRow p array)) := by
  induction n with
  | zero => simp
  | succ n ih =>
    rw [List.range_succ, List.foldl_append, ih]
    simp [fwrite, asciiRow, List.flatMap_append, List.append_assoc]

/-- On an open stream `blockToImage` appends `blockBytes` and changes nothing else. -/
theorem blockToImage_appends (p : PlotCTX) (array : Nat → Nat) (block : Block)
    (f : List Nat) (hf : p.file = some f) :
    blockToImage p array block = { p with file := some (f ++ blockBytes p array block) } := by
  by_cases hd : p.colour.depth = .BIT_DEPTH_ASCII
  · have h := asciiRows_foldl p array block.rows f
    simp only [blockToImage, blockBytes, hd, hf, ne_eq, not_true_eq_false, if_false, h]
  · simp [blockToImage, blockBytes, hd, hf, fwrite]

/-- The bytes appended for a block do not depend on the stream. -/
theorem blockBytes_setFile (p : PlotCTX) (g : Option (List Nat)) (array : Nat → Nat)
    (block : Block) :
    blockBytes { p with file := g } array block = blockBytes p array block :=
  rfl

/-- Truncating the product of a byte count and `bits / 8` is integer division. -/
theorem toSizeT_scaled (n bits : Nat) :
    toSizeT ((n : ℚ) * ((bits : ℚ) / 8)) = (n * bits / 8) % 2 ^ SIZE_BITS := by
  have hnn : (0 : ℚ) ≤ (n : ℚ) * ((bits : ℚ) / 8) := by positivity
  have hq : (n : ℚ) * ((bits : ℚ) / 8) = (((n * bits : ℕ) : ℤ) : ℚ) / ((8 : ℕ) : ℚ) := by
    push_cast
    ring
  have hfl : ⌊(n : ℚ) * ((bits : ℚ) / 8)⌋ = ((n * bits / 8 : ℕ) : ℤ) := by
    rw [hq, Rat.floor_intCast_div_natCast]
    norm_cast
  have hmod : (((n * bits / 8 : ℕ) : ℤ) % (2 : ℤ) ^ SIZE_BITS)
      = (((n * bits / 8) % 2 ^ SIZE_BITS : ℕ) : ℤ) := by
    push_cast
    rfl
  unfold toSizeT wrap truncate
  rw [if_pos hnn, hfl, hmod, Int.toNat_natCast]

/-- The number of bytes `blockToImage` appends for a block. -/
theorem blockBytes_length (p : PlotCTX) (array : Nat → Nat) (block : Block) :
    (blockBytes p array block).length
      = if p.colour.depth = .BIT_DEPTH_ASCII then block.rows * (p.width + 1)
        else (((block.rows * p.width) % 2 ^ SIZE_BITS) * p.colour.depth.bits / 8)
          % 2 ^ SIZE_BITS := by
  by_cases hd : p.colour.depth = .BIT_DEPTH_ASCII
  · simp [blockBytes, hd, asciiRow, LINE_TERMINATOR, List.length_flatMap, Function.comp_def]
  · simp only [blockBytes, hd, ne_eq, not_false_eq_true, if_true, if_false, List.length_map,
      List.length_range]
    exact toSizeT_scaled _ _

/-- The stream after a sequence of bands: every band appended its `blockBytes`,
whose lengths add up. -/
theorem writeBands_length (compute : Block → Option (Nat → Nat)) :
    ∀ (blocks : List Block) (p : PlotCTX) (f : List Nat), p.file = some f →
      ∃ rest : List Nat,
        writeBands compute p blocks = { p with file := some (f ++ rest) } ∧
        rest.length
          = (blocks.map (fun b => (blockBytes p ((compute b).getD (fun _ => 0)) b).length)).sum := by
  intro blocks
  induction blocks with
  | nil =>
    intro p f hf
    refine ⟨[], ?_, by simp⟩
    cases p
    simp_all [writeBands]
  | cons b bs ih =>
    intro p f hf
    have hstep := blockToImage_appends p ((compute b).getD (fun _ => 0)) b f hf
    obtain ⟨rest, hrest, hlen⟩ := ih (blockToImage p ((compute b).getD (fun _ => 0)) b)
      (f ++ blockBytes p ((compute b).getD (fun _ => 0)) b) (by rw [hstep])
    refine ⟨blockBytes p ((compute b).getD (fun _ => 0)) b ++ rest, ?_, ?_⟩
    · have : writeBands compute p (b :: bs)
          = writeBands compute (blockToImage p ((compute b).getD (fun _ => 0)) b) bs := rfl
      rw [this, hrest, hstep]
      simp [List.append_assoc]
    · rw [List.length_append, hlen, hstep]
      simp [blockBytes_setFile]

/-- The byte count of a whole render is the sum of the byte counts of its bands. -/
theorem renderBytes_eq_sum (idBits R : Nat) (p : PlotCTX) (f : List Nat)
    (compute : Block → Option (Nat → Nat)) (hf : p.file = some f)
    (hfit : p.height / R + 1 < 2 ^ idBits) (hok : ∀ b, (compute b).isSome)
    (fuel : Nat) (hfuel : p.height / R + 2 ≤ fuel) :
    renderBytes idBits p R compute fuel
      = some (((fullBands (blockCTX p.height R) 0 (p.height / R)
          ++ lastBand (blockCTX p.height R)).map
            (fun b => (blockBytes p ((compute b).getD (fun _ => 0)) b).length)).sum) := by
  have hrun := imageOutputLoop_run idBits (blockCTX p.height R) compute hok hfit
    (p.height / R) 0 fuel p [] (by simp [blockCTX]) hfuel
  obtain ⟨rest, hrest, hlen⟩ := writeBands_length compute
    (fullBands (blockCTX p.height R) 0 (p.height / R) ++ lastBand (blockCTX p.height R)) p f hf
  unfold renderBytes
  rw [hrun, hrest]
  simp [bytesWritten, hf, hlen]

/-- No band of the render has more rows than the image. -/
theorem bands_rows_le (H R : Nat) (hRH : R ≤ H) :
    ∀ b ∈ fullBands (blockCTX H R) 0 (H / R) ++ lastBand (blockCTX H R), b.rows ≤ H := by
  intro b hb
  rcases List.mem_append.mp hb with hb | hb
  · simp only [fullBands, blockCTX, List.mem_map] at hb
    obtain ⟨i, _, rfl⟩ := hb
    exact hRH
  · unfold lastBand blockCTX at hb
    by_cases hrem : H % R = 0
    · simp [hrem] at hb
    · simp only [hrem, if_false, List.mem_singleton] at hb
      subst hb
      exact Nat.mod_le H R

/-- A per-band count that is `c` per row adds up to `c` per row of the image. -/
theorem bands_sum_linear (H R c : Nat) (hRH : R ≤ H) (g : Block → Nat)
    (hg : ∀ b : Block, b.rows ≤ H → g b = b.rows * c) :
    ((fullBands (blockCTX H R) 0 (H / R) ++ lastBand (blockCTX H R)).map g).sum = H * c := by
  have hcongr : (fullBands (blockCTX H R) 0 (H / R) ++ lastBand (blockCTX H R)).map g
      = (fullBands (blockCTX H R) 0 (H / R) ++ lastBand (blockCTX H R)).map
          (fun b => b.rows * c) :=
    List.map_congr_left (fun b hb => hg b (bands_rows_le H R hRH b hb))
  rw [hcongr, List.sum_map_mul_right, bands_rows_sum]

/-! ## Pixel bytes of a whole render -/

/-- C4: for every width W, height H and band height R with 1 <= R <= H and no
`size_t` overflow, with a band counter that can step past the band count and
every band computed, the bytes `blockToImage` appends over the whole band loop
number W*H at 8-bit depth, 3*W*H at 24-bit depth and W*H + H at the ASCII
depth; every ASCII band is written row by row, each row being its W bytes
followed by one line-feed (byte 10). -/
theorem render_pixel_bytes (idBits W H R : Nat) (out : OutputType) (kind : ColourSchemeType)
    (m : MapColourFn) (f : List Nat) (compute : Block → Option (Nat → Nat))
    (_hR : 1 ≤ R) (hRH : R ≤ H) (hsize : 3 * (W * H) < 2 ^ SIZE_BITS)
    (hfit : H / R + 1 < 2 ^ idBits) (hok : ∀ b, (compute b).isSome)
    (fuel : Nat) (hfuel : H / R + 2 ≤ fuel) :
    renderBytes idBits ⟨W, H, out, ⟨kind, .BIT_DEPTH_8, m⟩, some f⟩ R compute fuel
      = some (W * H) ∧
    renderBytes idBits ⟨W, H, out, ⟨kind, .BIT_DEPTH_24, m⟩, some f⟩ R compute fuel
      = some (3 * W * H) ∧
    renderBytes idBits ⟨W, H, out, ⟨kind, .BIT_DEPTH_ASCII, m⟩, some f⟩ R compute fuel
      = some (W * H + H) ∧
    (∀ (array : Nat → Nat) (block : Block),
      blockToImage ⟨W, H, out, ⟨kind, .BIT_DEPTH_ASCII, m⟩, some f⟩ array block
        = ⟨W, H, out, ⟨kind, .BIT_DEPTH_ASCII, m⟩, some (f ++ (List.range block.rows).flatMap
            (fun i => (List.range W).map (fun j => array (i * W + j)) ++ [10]))⟩) := by
  have hbound : ∀ b : Block, b.rows ≤ H → 3 * (b.rows * W) < 2 ^ SIZE_BITS := by
    intro b hb
    have : b.rows * W ≤ W * H := by
      rw [Nat.mul_comm W H]
      exact Nat.mul_le_mul_right W hb
    omega
  refine ⟨?_, ?_, ?_, ?_⟩
  · rw [renderBytes_eq_sum idBits R _ f compute rfl hfit hok fuel hfuel]
    congr 1
    rw [bands_sum_linear H R W hRH, Nat.mul_comm]
    intro b hb
    have h1 := hbound b hb
    have hlt : b.rows * W < 2 ^ SIZE_BITS := by omega
    rw [blockBytes_length]
    simp only [BitDepth.bits, reduceCtorEq, if_false]
    rw [Nat.mod_eq_of_lt hlt, Nat.mul_div_cancel _ (by norm_num), Nat.mod_eq_of_lt hlt]
  · rw [renderBytes_eq_sum idBits R _ f compute rfl hfit hok fuel hfuel]
    congr 1
    rw [bands_sum_linear H R (3 * W) hRH]
    · ring
    intro b hb
    have h1 := hbound b hb
    have hlt : b.rows * W < 2 ^ SIZE_BITS := by omega
    have h3 : b.rows * (3 * W) = 3 * (b.rows * W) := by ring
    have h24 : b.rows * W * 24 / 8 = b.rows * (3 * W) := by
      rw [h3]
      omega
    rw [blockBytes_length]
    simp only [BitDepth.bits, reduceCtorEq, if_false]
    rw [Nat.mod_eq_of_lt hlt, h24, Nat.mod_eq_of_lt (by rw [h3]; exact h1)]
  · rw [renderBytes_eq_sum idBits R _ f compute rfl hfit hok fuel hfuel]
    congr 1
    rw [bands_sum_linear H R (W + 1) hRH]
    · ring
    intro b _
    rw [blockBytes_length]
    simp
  · intro array block
    rw [blockToImage_appends _ array block f rfl]
    rfl

/-- C4 at the 640x480 render of the spec in bands of 7 rows (32-bit counter):
640*480 bytes at 8-bit depth, 640*480*3 at 24-bit depth, 640*480 + 480 for ASCII. -/
theorem render_pixel_bytes_witness :
    renderBytes 32 ⟨640, 480, .OUTPUT_PNM, ⟨.COLOUR_SCHEME_TYPE_GREYSCALE, .BIT_DEPTH_8,
        .mapColourSchemeGreyscale⟩, some []⟩ 7 (fun _ => some (fun _ => 0)) 70
      = some (640 * 480) ∧
    renderBytes 32 ⟨640, 480, .OUTPUT_PNM, ⟨.COLOUR_SCHEME_TYPE_GREYSCALE, .BIT_DEPTH_24,
        .mapColourSchemeGreyscale⟩, some []⟩ 7 (fun _ => some (fun _ => 0)) 70
      = some (3 * 640 * 480) ∧
    renderBytes 32 ⟨640, 480, .OUTPUT_PNM, ⟨.COLOUR_SCHEME_TYPE_GREYSCALE, .BIT_DEPTH_ASCII,
        .mapColourSchemeGreyscale⟩, some []⟩ 7 (fun _ => some (fun _ => 0)) 70
      = some (640 * 480 + 480) :=
  have h := render_pixel_bytes 32 640 480 7 .OUTPUT_PNM .COLOUR_SCHEME_TYPE_GREYSCALE
    .mapColourSchemeGreyscale [] (fun _ => some (fun _ => 0)) (by decide) (by decide)
    (by decide) (by decide) (fun _ => rfl) 70 (by decide)
  ⟨h.1, h.2.1, h.2.2.1⟩

/-! ## 1-bit depth: bytes of a render -/

/-- At 1-bit depth every band of `r` rows contributes `r * W / 8` bytes, rounded
down, so a render in bands of `R` rows writes `(H / R) * (R * W / 8)` bytes for
its full bands and `(H mod R) * W / 8` bytes for the remainder band. -/
theorem renderBytes_depth1 (idBits W H R : Nat) (out : OutputType) (kind : ColourSchemeType)
    (m : MapColourFn) (f : List Nat) (compute : Block → Option (Nat → Nat))
    (hRH : R ≤ H) (hsize : W * H < 2 ^ SIZE_BITS)
    (hfit : H / R + 1 < 2 ^ idBits) (hok : ∀ b, (compute b).isSome)
    (fuel : Nat) (hfuel : H / R + 2 ≤ fuel) :
    renderBytes idBits ⟨W, H, out, ⟨kind, .BIT_DEPTH_1, m⟩, some f⟩ R compute fuel
      = some ((H / R) * (R * W / 8) + (H % R) * W / 8) := by
  have hlen : ∀ b : Block, b.rows ≤ H →
      (blockBytes ⟨W, H, out, ⟨kind, .BIT_DEPTH_1, m⟩, some f⟩
        ((compute b).getD (fun _ => 0)) b).length = b.rows * W / 8 := by
    intro b hb
    have hle : b.rows * W ≤ W * H := by
      rw [Nat.mul_comm W H]
      exact Nat.mul_le_mul_right W hb
    have hlt : b.rows * W < 2 ^ SIZE_BITS := by omega
    have hdiv : b.rows * W / 8 < 2 ^ SIZE_BITS :=
      lt_of_le_of_lt (Nat.div_le_self _ _) hlt
    rw [blockBytes_length]
    simp only [BitDepth.bits, reduceCtorEq, if_false, Nat.mul_one]
    rw [Nat.mod_eq_of_lt hlt, Nat.mod_eq_of_lt hdiv]
  rw [renderBytes_eq_sum idBits R _ f compute rfl hfit hok fuel hfuel]
  congr 1
  have hcongr := List.map_congr_left
    (fun b hb => hlen b (bands_rows_le H R hRH b hb))
  rw [hcongr, List.map_append, List.sum_append]
  congr 1
  · simp [fullBands, blockCTX, Function.comp_def]
  · unfold lastBand blockCTX
    by_cases hrem : H % R = 0
    · simp [hrem]
    · simp [hrem]

/-- C5 (the code at the failing input): a 100x100 image at 1-bit depth written as
one band of 100 rows gets 1250 pixel bytes, not the 1300 that rows padded to a
byte boundary need. -/
theorem pbm_100x100_pixel_bytes :
    renderBytes 32 ⟨100, 100, .OUTPUT_PNM, ⟨.COLOUR_SCHEME_TYPE_BLACK_WHITE, .BIT_DEPTH_1,
        .mapColourSchemeBlackWhite⟩, some []⟩ 100 (fun _ => some (fun _ => 0)) 3
      = some 1250 ∧ 1250 ≠ (100 + 7) / 8 * 100 := by
  refine ⟨?_, by decide⟩
  rw [renderBytes_depth1 32 100 100 100 _ _ _ [] (fun _ => some (fun _ => 0))
      (by decide) (by decide) (by decide)
    (fun _ => rfl) 3 (by decide)]

/-- C6 (the code at the failing input): the same 100x100 image at 1-bit depth
gets 1250 pixel bytes when written as one band of 100 rows and 1200 when written
in bands of one row. -/
theorem pbm_bytes_depend_on_band_height :
    renderBytes 32 ⟨100, 100, .OUTPUT_PNM, ⟨.COLOUR_SCHEME_TYPE_BLACK_WHITE, .BIT_DEPTH_1,
        .mapColourSchemeBlackWhite⟩, some []⟩ 100 (fun _ => some (fun _ => 0)) 102
      = some 1250 ∧
    renderBytes 32 ⟨100, 100, .OUTPUT_PNM, ⟨.COLOUR_SCHEME_TYPE_BLACK_WHITE, .BIT_DEPTH_1,
        .mapColourSchemeBlackWhite⟩, some []⟩ 1 (fun _ => some (fun _ => 0)) 102
      = some 1200 := by
  constructor
  · rw [renderBytes_depth1 32 100 100 100 _ _ _ [] (fun _ => some (fun _ => 0))
      (by decide) (by decide) (by decide)
      (fun _ => rfl) 102 (by decide)]
  · rw [renderBytes_depth1 32 100 100 1 _ _ _ [] (fun _ => some (fun _ => 0))
      (by decide) (by decide) (by decide)
      (fun _ => rfl) 102 (by decide)]

/-! ## hsvToRGB -/

/-- C7 (the code at the failing input): for HSV(0, 1, 1), the colour of a point
of the RED_WHITE scheme that has not escaped, `hsvToRGB` yields RGB (1, 0, 0):
the value channel is stored without the factor 255 that the other two channel
values carry. -/
theorem hsvToRGB_pure_red (rgb : ColourRGB) (n : ℚ) :
    hsvToRGB rgb { h := 0, s := 1, v := 1 } = { r := 1, g := 0, b := 0 } ∧
    mapColourSchemeRedWhite rgb n .UNESCAPED = { r := 1, g := 0, b := 0 } := by
  have h : hsvToRGB rgb { h := 0, s := 1, v := 1 } = { r := 1, g := 0, b := 0 } := by
    norm_num [hsvToRGB, toUInt8, wrap, truncate]
  exact ⟨h, by simpa [mapColourSchemeRedWhite] using h⟩

/-! ## The ASCII mapper -/

/-- For a non-negative dividend and a positive divisor `fmod` lies in `[0, y)`. -/
theorem fmod_range (x y : ℚ) (hx : 0 ≤ x) (hy : 0 < y) :
    0 ≤ fmod x y ∧ fmod x y < y := by
  have hq : 0 ≤ x / y := div_nonneg hx hy.le
  have hfl : (⌊x / y⌋ : ℚ) ≤ x / y := Int.floor_le _
  have hlt : x / y < (⌊x / y⌋ : ℚ) + 1 := Int.lt_floor_add_one _
  have h1 : (⌊x / y⌋ : ℚ) * y ≤ x := (le_div_iff₀ hy).mp hfl
  have h2 : x < ((⌊x / y⌋ : ℚ) + 1) * y := (div_lt_iff₀ hy).mp hlt
  unfold fmod truncate
  rw [if_pos hq]
  constructor
  · linarith
  · linarith

/-- The charset has ten characters. -/
theorem charset_length : OUTPUT_TERMINAL_CHARSET_LENGTH = 10 := by
  decide

/-- For a non-negative count the index of an ESCAPED point is the floor of
`(0.3 * n) mod 9` and is at most 8. -/
theorem mapASCIIIndex_escaped (n : ℚ) (hn : 0 ≤ n) :
    mapASCIIIndex n .ESCAPED = (⌊fmod (CHAR_SCALE_MULTIPLIER * n) 9⌋).toNat ∧
    mapASCIIIndex n .ESCAPED < 9 := by
  have hx : 0 ≤ CHAR_SCALE_MULTIPLIER * n := by
    unfold CHAR_SCALE_MULTIPLIER
    positivity
  obtain ⟨h0, h9⟩ := fmod_range (CHAR_SCALE_MULTIPLIER * n) 9 hx (by norm_num)
  have hfl0 : 0 ≤ ⌊fmod (CHAR_SCALE_MULTIPLIER * n) 9⌋ := Int.floor_nonneg.mpr h0
  have hfl9 : ⌊fmod (CHAR_SCALE_MULTIPLIER * n) 9⌋ < 9 := by
    rw [Int.floor_lt]
    exact_mod_cast h9
  have hidx : mapASCIIIndex n .ESCAPED = (⌊fmod (CHAR_SCALE_MULTIPLIER * n) 9⌋).toNat := by
    unfold mapASCIIIndex
    rw [charset_length]
    simp only [if_true, wrap, truncate]
    norm_num only [Nat.cast_ofNat, Nat.reduceSub]
    rw [if_pos h0, Int.emod_eq_of_lt hfl0]
    have : (2 : ℤ) ^ SIZE_BITS = 18446744073709551616 := by norm_num [SIZE_BITS]
    omega
  refine ⟨hidx, ?_⟩
  rw [hidx]
  omega

/-- The index of an UNESCAPED point is the last index, 9. -/
theorem mapASCIIIndex_unescaped (n : ℚ) : mapASCIIIndex n .UNESCAPED = 9 := by
  simp [mapASCIIIndex, charset_length]

/-- Every index below the charset length reads a character of the charset; the
indices below 9 read one of the first nine characters. -/
theorem charset_lookup (i : Nat) (hi : i < 10) :
    (∃ c ∈ OUTPUT_TERMINAL_CHARSET.data, OUTPUT_TERMINAL_CHARSET.data[i]? = some c) ∧
    (i < 9 → (∃ c ∈ " .:-=+*#%".data, OUTPUT_TERMINAL_CHARSET.data[i]? = some c) ∧
      OUTPUT_TERMINAL_CHARSET.data[i]? ≠ some '@') := by
  interval_cases i <;> decide

/-- C8 (counterexample): at the smoothed count n = 31 an ESCAPED point is mapped
to the first character, the blank, whereas the rule with L = 10 reads index
floor(9.3 mod 10) = 9, the character '@'. -/
theorem mapASCII_not_mod_ten :
    mapASCII ⟨0, 0, 0⟩ 31 .ESCAPED = some ' ' ∧
    specASCIIIndex 31 = 9 ∧
    OUTPUT_TERMINAL_CHARSET.data[specASCIIIndex 31]? = some '@' ∧
    mapASCII ⟨0, 0, 0⟩ 31 .ESCAPED ≠ OUTPUT_TERMINAL_CHARSET.data[specASCIIIndex 31]? := by
  have hcode : mapASCIIIndex 31 .ESCAPED = 0 := by
    rw [(mapASCIIIndex_escaped 31 (by norm_num)).1]
    norm_num [fmod, truncate, CHAR_SCALE_MULTIPLIER]
  have hspec : specASCIIIndex 31 = 9 := by
    norm_num [specASCIIIndex, fmod, truncate, CHAR_SCALE_MULTIPLIER]
    rfl
  refine ⟨?_, hspec, ?_, ?_⟩
  · unfold mapASCII
    rw [hcode]
    decide
  · rw [hspec]
    decide
  · unfold mapASCII
    rw [hcode, hspec]
    decide

/-- C8 (amended): for every smoothed count n >= 0 an ESCAPED point maps to the
character at index floor((0.3 * n) mod 9) of the charset, 9 being the last index
(the charset length less one); that index is at most 8, so the character is one
of the first nine, " .:-=+*#%", and never '@'; each of those nine indices is
reached by some n >= 0; an UNESCAPED point maps to the last character '@'. -/
theorem mapASCII_rule (rgb : ColourRGB) (n : ℚ) (hn : 0 ≤ n) :
    mapASCII rgb n .ESCAPED
      = OUTPUT_TERMINAL_CHARSET.data[(⌊fmod (CHAR_SCALE_MULTIPLIER * n) 9⌋).toNat]? ∧
    (⌊fmod (CHAR_SCALE_MULTIPLIER * n) 9⌋).toNat < 9 ∧
    (∃ c ∈ " .:-=+*#%".data, mapASCII rgb n .ESCAPED = some c) ∧
    mapASCII rgb n .ESCAPED ≠ some '@' ∧
    (∀ j : Nat, j < 9 → ∃ n' : ℚ, 0 ≤ n' ∧ mapASCIIIndex n' .ESCAPED = j) ∧
    mapASCII rgb n .UNESCAPED = some '@' := by
  obtain ⟨hidx, hlt⟩ := mapASCIIIndex_escaped n hn
  have hlook := (charset_lookup (mapASCIIIndex n .ESCAPED) (by omega)).2 hlt
  refine ⟨?_, ?_, hlook.1, hlook.2, ?_, ?_⟩
  · unfold mapASCII
    rw [hidx]
  · rw [← hidx]
    exact hlt
  · intro j hj
    refine ⟨10 * (j : ℚ) / 3, by positivity, ?_⟩
    rw [(mapASCIIIndex_escaped _ (by positivity)).1]
    interval_cases j <;> norm_num [fmod, truncate, CHAR_SCALE_MULTIPLIER] <;> rfl
  · unfold mapASCII
    rw [mapASCIIIndex_unescaped]
    decide

/-- C8 (amended) at n = 31: the index is floor(9.3 mod 9) = 0 and the character
the blank. -/
theorem mapASCII_rule_witness :
    (0 : ℚ) ≤ 31 ∧
    mapASCII ⟨0, 0, 0⟩ 31 .ESCAPED
      = OUTPUT_TERMINAL_CHARSET.data[(⌊fmod (CHAR_SCALE_MULTIPLIER * 31) 9⌋).toNat]? ∧
    mapASCII ⟨0, 0, 0⟩ 31 .ESCAPED ≠ some '@' ∧
    mapASCII ⟨0, 0, 0⟩ 31 .UNESCAPED = some '@' :=
  have h := mapASCII_rule ⟨0, 0, 0⟩ 31 (by norm_num)
  ⟨by norm_num, h.1, h.2.2.2.1, h.2.2.2.2.2⟩

/-- C9: for every iteration count, either escape status and every smoothing
factor in [0, 1], the index `mapASCII` computes from
n = iterations + 1 - smoothFactor is within 0..9, so the lookup stays inside the
charset and the character returned is one of " .:-=+*#%@". -/
theorem mapASCII_in_charset (rgb : ColourRGB) (smoothFactor : ℚ) (iterations : Nat)
    (status : EscapeStatus) (_h0 : 0 ≤ smoothFactor) (h1 : smoothFactor ≤ 1) :
    mapASCIIIndex (smooth smoothFactor iterations) status ≤ 9 ∧
    ∃ c ∈ " .:-=+*#%@".data, mapASCII rgb (smooth smoothFactor iterations) status = some c := by
  have hn : 0 ≤ smooth smoothFactor iterations := by
    unfold smooth
    have : (0 : ℚ) ≤ (iterations : ℚ) := Nat.cast_nonneg _
    linarith
  have hidx : mapASCIIIndex (smooth smoothFactor iterations) status ≤ 9 := by
    cases status with
    | ESCAPED => exact (mapASCIIIndex_escaped _ hn).2.le
    | UNESCAPED => exact (mapASCIIIndex_unescaped _).le
  exact ⟨hidx, (charset_lookup _ (by omega)).1⟩

/-- C9 at iteration count 30 with smoothing factor 3/10, both statuses. -/
theorem mapASCII_in_charset_witness :
    ((0 : ℚ) ≤ 3 / 10 ∧ (3 / 10 : ℚ) ≤ 1) ∧
    (mapASCIIIndex (smooth (3 / 10) 30) .ESCAPED ≤ 9 ∧
      ∃ c ∈ " .:-=+*#%@".data, mapASCII ⟨0, 0, 0⟩ (smooth (3 / 10) 30) .ESCAPED = some c) :=
  ⟨⟨by norm_num, by norm_num⟩,
   mapASCII_in_charset ⟨0, 0, 0⟩ (3 / 10) 30 .ESCAPED (by norm_num) (by norm_num)⟩

/-! ## The 1-bit mappers -/

/-- For a bit position k in 0..7 the mask `1 << (7 - k)` is `2 ^ (7 - k)`. -/
theorem bitMask_position (k : Nat) (hk : k < 8) : bitMask (k : ℚ) = 2 ^ (7 - k) := by
  have htr : truncate (k : ℚ) = (k : ℤ) := by
    unfold truncate
    rw [if_pos (Nat.cast_nonneg k), Int.floor_natCast]
  have hu : toUInt (k : ℚ) = k := by
    unfold toUInt wrap
    rw [htr]
    have : ((k : ℤ) % (2 : ℤ) ^ UINT_BITS) = ((k % 2 ^ UINT_BITS : ℕ) : ℤ) := by
      push_cast
      rfl
    rw [this, Int.toNat_natCast]
    exact Nat.mod_eq_of_lt (lt_of_lt_of_le hk (by norm_num [UINT_BITS]))
  unfold bitMask
  rw [hu]
  interval_cases k <;> decide

/-- Setting the mask bit in a byte: bit `7 - k` becomes 1, the other bits of the
low byte are kept. -/
theorem setBit_testBit (b k j : Nat) (hj : j < 8) :
    ((b ||| 2 ^ (7 - k)) % 2 ^ 8).testBit j = if j = 7 - k then true else b.testBit j := by
  rw [Nat.testBit_mod_two_pow, Nat.testBit_or, Nat.testBit_two_pow]
  by_cases h : j = 7 - k
  · simp [h, hj]
    omega
  · have h2 : ¬ (7 - k = j) := fun e => h e.symm
    simp [h, h2, hj]

/-- Clearing the mask bit in a byte: bit `7 - k` becomes 0, the other bits of
the low byte are kept. -/
theorem clearBit_testBit (b k j : Nat) (hj : j < 8) :
    ((b &&& bitNot (2 ^ (7 - k))) % 2 ^ 8).testBit j
      = if j = 7 - k then false else b.testBit j := by
  have hlt : 2 ^ (7 - k) < 2 ^ UINT_BITS :=
    Nat.pow_lt_pow_right (by norm_num) (by unfold UINT_BITS; omega)
  have hnot : bitNot (2 ^ (7 - k)) = 2 ^ UINT_BITS - (2 ^ (7 - k) + 1) := by
    unfold bitNot
    omega
  rw [Nat.testBit_mod_two_pow, Nat.testBit_and, hnot, Nat.testBit_two_pow_sub_succ hlt,
    Nat.testBit_two_pow]
  have hj32 : j < UINT_BITS := by
    unfold UINT_BITS
    omega
  by_cases h : j = 7 - k
  · simp [h, hj]
  · have h2 : ¬ (7 - k = j) := fun e => h e.symm
    simp [h, h2, hj, hj32]

/-- C10: for every pixel, whose red channel is the current byte b, and every bit
position k in 0..7, `mapColourSchemeBlackWhite` clears bit (7 - k) of b when the
status is ESCAPED and sets it when UNESCAPED, `mapColourSchemeWhiteBlack` sets
it when ESCAPED and clears it when UNESCAPED; in all four cases the other seven
bits of the byte and the other two channels are unchanged and the result is a
byte; position 0 is the most significant bit 0x80. -/
theorem one_bit_mappers (rgb : ColourRGB) (k : Nat) (hk : k < 8) :
    (∀ j : Nat, j < 8 →
      (mapColourSchemeBlackWhite rgb (k : ℚ) .ESCAPED).r.testBit j
        = if j = 7 - k then false else rgb.r.testBit j) ∧
    (∀ j : Nat, j < 8 →
      (mapColourSchemeBlackWhite rgb (k : ℚ) .UNESCAPED).r.testBit j
        = if j = 7 - k then true else rgb.r.testBit j) ∧
    (∀ j : Nat, j < 8 →
      (mapColourSchemeWhiteBlack rgb (k : ℚ) .ESCAPED).r.testBit j
        = if j = 7 - k then true else rgb.r.testBit j) ∧
    (∀ j : Nat, j < 8 →
      (mapColourSchemeWhiteBlack rgb (k : ℚ) .UNESCAPED).r.testBit j
        = if j = 7 - k then false else rgb.r.testBit j) ∧
    (∀ status : EscapeStatus,
      (mapColourSchemeBlackWhite rgb (k : ℚ) status).r < 256 ∧
      (mapColourSchemeBlackWhite rgb (k : ℚ) status).g = rgb.g ∧
      (mapColourSchemeBlackWhite rgb (k : ℚ) status).b = rgb.b ∧
      (mapColourSchemeWhiteBlack rgb (k : ℚ) status).r < 256 ∧
      (mapColourSchemeWhiteBlack rgb (k : ℚ) status).g = rgb.g ∧
      (mapColourSchemeWhiteBlack rgb (k : ℚ) status).b = rgb.b) ∧
    (k = 0 → (mapColourSchemeBlackWhite { rgb with r := 0 } (k : ℚ) .UNESCAPED).r = 0x80) := by
  have hm := bitMask_position k hk
  refine ⟨?_, ?_, ?_, ?_, ?_, ?_⟩
  · intro j hj
    simp only [mapColourSchemeBlackWhite, hm]
    exact clearBit_testBit rgb.r k j hj
  · intro j hj
    simp only [mapColourSchemeBlackWhite, hm]
    exact setBit_testBit rgb.r k j hj
  · intro j hj
    simp only [mapColourSchemeWhiteBlack, hm]
    exact setBit_testBit rgb.r k j hj
  · intro j hj
    simp only [mapColourSchemeWhiteBlack, hm]
    exact clearBit_testBit rgb.r k j hj
  · intro status
    cases status <;>
      simp only [mapColourSchemeBlackWhite, mapColourSchemeWhiteBlack, and_true, true_and] <;>
      exact ⟨Nat.mod_lt _ (by norm_num), Nat.mod_lt _ (by norm_num)⟩
  · intro h0
    subst h0
    simp only [mapColourSchemeBlackWhite, hm]
    decide

/-- C10 at the byte 0xFF and bit position 2: the ESCAPED point of BLACK_WHITE
leaves 0xDF, and bit 5 is the one cleared. -/
theorem one_bit_mappers_witness :
    2 < 8 ∧
    (∀ j : Nat, j < 8 →
      (mapColourSchemeBlackWhite ⟨255, 0, 0⟩ ((2 : Nat) : ℚ) .ESCAPED).r.testBit j
        = if j = 7 - 2 then false else (255 : Nat).testBit j) :=
  ⟨by decide, (one_bit_mappers ⟨255, 0, 0⟩ 2 (by decide)).1⟩

/-! ## The default scheme -/

/-- C15 (the code at the failing input): called with `COLOUR_SCHEME_TYPE_DEFAULT`,
`initialiseColourScheme` yields kind ALL with the ASCII depth and the ASCII
mapper, which is neither the declared default `COLOUR_SCHEME_DEFAULT` nor the
result for `COLOUR_SCHEME_TYPE_ALL`, and whose depth is the ASCII depth although
its kind is not ASCII; for every other input kind the depth is the ASCII depth
exactly when the kind is ASCII. -/
theorem initialiseColourScheme_default (scheme : ColourScheme) :
    initialiseColourScheme scheme .COLOUR_SCHEME_TYPE_DEFAULT
      = ⟨.COLOUR_SCHEME_TYPE_ALL, .BIT_DEPTH_ASCII, .mapColourSchemeASCII⟩ ∧
    initialiseColourScheme scheme .COLOUR_SCHEME_TYPE_DEFAULT ≠ COLOUR_SCHEME_DEFAULT ∧
    initialiseColourScheme scheme .COLOUR_SCHEME_TYPE_DEFAULT
      ≠ initialiseColourScheme scheme .COLOUR_SCHEME_TYPE_ALL ∧
    ¬ ((initialiseColourScheme scheme .COLOUR_SCHEME_TYPE_DEFAULT).depth = .BIT_DEPTH_ASCII ↔
        (initialiseColourScheme scheme .COLOUR_SCHEME_TYPE_DEFAULT).colour
          = .COLOUR_SCHEME_TYPE_ASCII) ∧
    (∀ colour : ColourSchemeType, colour ≠ .COLOUR_SCHEME_TYPE_DEFAULT →
      ((initialiseColourScheme scheme colour).depth = .BIT_DEPTH_ASCII ↔
        (initialiseColourScheme scheme colour).colour = .COLOUR_SCHEME_TYPE_ASCII)) := by
  refine ⟨rfl, ?_, ?_, ?_, ?_⟩
  · simp [initialiseColourScheme, COLOUR_SCHEME_DEFAULT]
  · simp [initialiseColourScheme, COLOUR_SCHEME_DEFAULT]
  · simp [initialiseColourScheme, COLOUR_SCHEME_DEFAULT]
  intro colour hne
  cases colour <;> simp [initialiseColourScheme, COLOUR_SCHEME_DEFAULT] at hne ⊢

/-! ## mapColour -/

/-- The pixel `hsvToRGB` writes does not depend on what the pixel held before. -/
theorem hsvToRGB_overwrites (rgb1 rgb2 : ColourRGB) (hsv : ColourHSV) :
    hsvToRGB rgb1 hsv = hsvToRGB rgb2 hsv :=
  rfl

/-- Converting a smoothed count to `unsigned int` gives back the raw iteration
count whenever the smoothing factor lies in (0, 1]. -/
theorem toUInt_smooth (smoothFactor : ℚ) (iterations : Nat) (h0 : 0 < smoothFactor)
    (h1 : smoothFactor ≤ 1) (hit : iterations < 2 ^ UINT_BITS) :
    toUInt (smooth smoothFactor iterations) = iterations := by
  have hcast : (0 : ℚ) ≤ (iterations : ℚ) := Nat.cast_nonneg _
  have hnn : 0 ≤ smooth smoothFactor iterations := by
    unfold smooth
    linarith
  have hfl : ⌊smooth smoothFactor iterations⌋ = (iterations : ℤ) := by
    rw [Int.floor_eq_iff]
    unfold smooth
    constructor
    · push_cast
      linarith
    · push_cast
      linarith
  have hmod : ((iterations : ℤ) % (2 : ℤ) ^ UINT_BITS)
      = ((iterations % 2 ^ UINT_BITS : ℕ) : ℤ) := by
    push_cast
    rfl
  unfold toUInt wrap truncate
  rw [if_pos hnn, hfl, hmod, Int.toNat_natCast, Nat.mod_eq_of_lt hit]

/-- For a bit position k in 0..7 passed as the iteration count, the mask made
from the smoothed count is `2 ^ (7 - k)` whenever the smoothing factor lies in
(0, 1]. -/
theorem bitMask_smooth (smoothFactor : ℚ) (k : Nat) (h0 : 0 < smoothFactor)
    (h1 : smoothFactor ≤ 1) (hk : k < 8) :
    bitMask (smooth smoothFactor k) = 2 ^ (7 - k) := by
  have hu := toUInt_smooth smoothFactor k h0 h1
    (lt_of_lt_of_le hk (by norm_num [UINT_BITS]))
  unfold bitMask
  rw [hu]
  interval_cases k <;> decide

/-- On natural numbers `fmod` is the remainder. -/
theorem fmod_natCast (m k : Nat) (hk : 0 < k) :
    fmod (m : ℚ) (k : ℚ) = ((m % k : ℕ) : ℚ) := by
  have hq : (0 : ℚ) ≤ (m : ℚ) / (k : ℚ) := by positivity
  have hfl : ⌊(m : ℚ) / (k : ℚ)⌋ = ((m / k : ℕ) : ℤ) := by
    have h := Rat.floor_intCast_div_natCast (m : ℤ) k
    simp only [Int.cast_natCast] at h
    rw [h]
    norm_cast
  have hdm : (m : ℚ) = ((m / k : ℕ) : ℚ) * (k : ℚ) + ((m % k : ℕ) : ℚ) := by
    have := Nat.div_add_mod m k
    have hc : ((k * (m / k) + m % k : ℕ) : ℚ) = (m : ℚ) := by rw [this]
    push_cast at hc
    linarith
  unfold fmod truncate
  rw [if_pos hq, hfl, Int.cast_natCast]
  linarith

/-- Storing a non-negative ratio of naturals below 256 into a byte gives the
integer quotient. -/
theorem toUInt8_div (a b : Nat) (hlt : a / b < 256) :
    toUInt8 ((a : ℚ) / (b : ℚ)) = a / b := by
  have hq : (0 : ℚ) ≤ (a : ℚ) / (b : ℚ) := by positivity
  have hfl : ⌊(a : ℚ) / (b : ℚ)⌋ = ((a / b : ℕ) : ℤ) := by
    have h := Rat.floor_intCast_div_natCast (a : ℤ) b
    simp only [Int.cast_natCast] at h
    rw [h]
    norm_cast
  have hmod : (((a / b : ℕ) : ℤ) % (2 : ℤ) ^ 8) = (((a / b) % 2 ^ 8 : ℕ) : ℤ) := by
    push_cast
    rfl
  unfold toUInt8 wrap truncate
  rw [if_pos hq, hfl, hmod, Int.toNat_natCast]
  exact Nat.mod_eq_of_lt (by simpa using hlt)

/-- Storing a natural number below 256 into a byte keeps it. -/
theorem toUInt8_natCast (a : Nat) (hlt : a < 256) : toUInt8 (a : ℚ) = a := by
  have h := toUInt8_div a 1 (by simpa using hlt)
  simpa using h

/-- An ESCAPED point of `mapColourSchemeAll`: the hue is the remainder modulo 360
of the product `20 * n` reduced to `unsigned int`, a natural number. -/
theorem mapColourSchemeAll_escaped (rgb : ColourRGB) (n : Nat) :
    mapColourSchemeAll rgb n .ESCAPED
      = hsvToRGB rgb ⟨(((20 * n) % 2 ^ UINT_BITS % 360 : ℕ) : ℚ), 6 / 10, 8 / 10⟩ := by
  have h := fmod_natCast ((20 * n) % 2 ^ UINT_BITS) 360 (by norm_num)
  simp only [Nat.cast_ofNat] at h
  simp only [mapColourSchemeAll, if_true, COLOUR_SCALE_MULTIPLIER, h]

/-- A colour of value 0 is black. -/
theorem hsvToRGB_black (rgb : ColourRGB) (h s : ℚ) :
    hsvToRGB rgb ⟨h, s, 0⟩ = ⟨0, 0, 0⟩ := by
  by_cases hh : h < 0 <;> by_cases hs : s < 0 <;> simp [hsvToRGB, hh, hs]

/-- A point of `mapColourSchemeAll` whose status is not ESCAPED is black. -/
theorem mapColourSchemeAll_unescaped (rgb : ColourRGB) (n : Nat) :
    mapColourSchemeAll rgb n .UNESCAPED = ⟨0, 0, 0⟩ := by
  simp only [mapColourSchemeAll, reduceCtorEq, if_false]
  exact hsvToRGB_black rgb 0 (6 / 10)

/-- The pixel of saturation 0.6 and value 0.8 whose hue is a natural number
divisible by 4 is never (0, 110, 81). -/
theorem hue_multiple_of_four (rgb : ColourRGB) (h : Nat) (hlt : h < 360) (h4 : 4 ∣ h) :
    hsvToRGB rgb ⟨(h : ℚ), 6 / 10, 8 / 10⟩ ≠ ⟨0, 110, 81⟩ := by
  have hfl : ⌊(h : ℚ) / 60⌋ = ((h / 60 : ℕ) : ℤ) := by
    have e := Rat.floor_intCast_div_natCast (h : ℤ) 60
    simp only [Int.cast_natCast, Nat.cast_ofNat] at e
    rw [e]
    norm_cast
  have hi : toUInt8 ((⌊(h : ℚ) / 60⌋ : ℤ) : ℚ) = h / 60 := by
    rw [hfl, Int.cast_natCast]
    exact toUInt8_natCast _ (by omega)
  have hh0 : ¬ ((h : ℚ) < 0) := not_lt.mpr (Nat.cast_nonneg h)
  have hv2 : toUInt8 (4 / 5 : ℚ) = 0 := by norm_num [toUInt8, wrap, truncate]
  have hp2 : toUInt8 (408 / 5 : ℚ) = 81 := by norm_num [toUInt8, wrap, truncate]; rfl
  simp only [hsvToRGB, hh0, ↓reduceIte]
  norm_num [hi]
  rw [hv2, hp2]
  obtain ⟨k, hk⟩ : ∃ k, h / 60 = k := ⟨_, rfl⟩
  have hk6 : k < 6 := by omega
  rw [hk]
  interval_cases k
  · have hg : (4 / 5 * (1 - 3 / 5 * (1 - ((h : ℚ) / 60 - ((0 : ℕ) : ℚ)))) * 255 : ℚ) =
        ((8160 + 204 * h : ℕ) : ℚ) / ((100 : ℕ) : ℚ) := by
      push_cast
      ring
    have hlt2 : (8160 + 204 * h) / 100 < 256 := by omega
    simp only [hg, toUInt8_div _ _ hlt2, ColourRGB.mk.injEq]
    omega
  all_goals simp [ColourRGB.mk.injEq]


/-- C11 (counterexample): with the same iteration count, status and scheme, the
BLACK_WHITE mapper leaves byte 0 when the pixel held 0 and byte 127 when it
held 255; and the GREYSCALE mapper, for an UNESCAPED point, gives grey 30 when
the unassigned local `n` holds 0 and grey 255 when it holds 30. -/
theorem mapColour_not_deterministic :
    (mapColour (3 / 10) 0 mapASCIIMapper ⟨0, .UNESCAPED⟩ ⟨0, 0, 0⟩
        ⟨.COLOUR_SCHEME_TYPE_BLACK_WHITE, .BIT_DEPTH_1, .mapColourSchemeBlackWhite⟩ 0 .ESCAPED).2
      = ⟨0, 0, 0⟩ ∧
    (mapColour (3 / 10) 0 mapASCIIMapper ⟨0, .UNESCAPED⟩ ⟨255, 0, 0⟩
        ⟨.COLOUR_SCHEME_TYPE_BLACK_WHITE, .BIT_DEPTH_1, .mapColourSchemeBlackWhite⟩ 0 .ESCAPED).2
      = ⟨127, 0, 0⟩ ∧
    (mapColour (3 / 10) 0 mapASCIIMapper ⟨0, .UNESCAPED⟩ ⟨0, 0, 0⟩
        ⟨.COLOUR_SCHEME_TYPE_GREYSCALE, .BIT_DEPTH_8, .mapColourSchemeGreyscale⟩ 7 .UNESCAPED).2
      = ⟨30, 0, 0⟩ ∧
    (mapColour (3 / 10) 30 mapASCIIMapper ⟨0, .UNESCAPED⟩ ⟨0, 0, 0⟩
        ⟨.COLOUR_SCHEME_TYPE_GREYSCALE, .BIT_DEPTH_8, .mapColourSchemeGreyscale⟩ 7 .UNESCAPED).2
      = ⟨255, 0, 0⟩ := by
  have hmask : bitMask (smooth (3 / 10) 0) = 128 := by
    have h : toUInt (smooth (3 / 10) 0) = 0 := by
      norm_num [toUInt, smooth, wrap, truncate]
    unfold bitMask
    rw [h]
    decide
  refine ⟨?_, ?_, ?_, ?_⟩
  · simp only [mapColour, callMapper, mapColourSchemeBlackWhite, if_true, hmask]
    decide
  · simp only [mapColour, callMapper, mapColourSchemeBlackWhite, if_true, hmask]
    decide
  · have h : toUInt8 (255 - fabs (fmod (0 * (85 / 10)) 510 - 255)) = 0 := by
      norm_num [toUInt8, wrap, truncate, fmod, fabs]
    simp only [mapColour, callMapper, mapColourSchemeGreyscale, reduceCtorEq, if_false, if_true, h]
    decide
  · have h : toUInt8 (255 - fabs (fmod (30 * (85 / 10)) 510 - 255)) = 255 := by
      norm_num [toUInt8, wrap, truncate, fmod, fabs]
      rfl
    simp only [mapColour, callMapper, mapColourSchemeGreyscale, reduceCtorEq, if_false, if_true, h]
    decide

/-- C11 (amended): take two calls of `mapColour` with the same smoothing factor,
iteration count, status and scheme, whatever the pixel held before each call
(`rgb1`, `rgb2`), whatever the unassigned local `n` holds (`n1`, `n2`) and
whatever `mapColourSchemeAll` would find in its parameters (`received1`,
`received2`).

* For the mappers of ALL_VIBRANT, RED_WHITE, FIRE, RED_HOT and MATRIX the two
  calls return the same value and leave the same pixel.
* For the GREYSCALE mapper an ESCAPED point gets grey value 0 in both calls.
* For the mappers of BLACK_WHITE and WHITE_BLACK, an ESCAPED point, a smoothing
  factor in (0, 1] and an iteration count below 8: the byte after the call is
  the byte the pixel held before with bit `7 - iterations` cleared (BLACK_WHITE)
  or set (WHITE_BLACK), the other seven bits and the other two channels
  unchanged.
* For the ASCII scheme pointing at `mapASCII` the value returned is the same in
  both calls. -/
theorem mapColour_deterministic (smoothFactor : ℚ)
    (ascii : ColourRGB → ℚ → EscapeStatus → Option Nat × ColourRGB)
    (received1 received2 : AllArguments) (scheme : ColourScheme) (iterations : Nat)
    (status : EscapeStatus) (n1 n2 : ℚ) (rgb1 rgb2 : ColourRGB) :
    (scheme.mapColour ∈ [MapColourFn.mapColourSchemeAllVibrant, .mapColourSchemeRedWhite,
        .mapColourSchemeFire, .mapColourSchemeRedHot, .mapColourSchemeMatrix] →
      mapColour smoothFactor n1 ascii received1 rgb1 scheme iterations status
        = mapColour smoothFactor n2 ascii received2 rgb2 scheme iterations status) ∧
    (scheme.mapColour = .mapColourSchemeGreyscale →
      (mapColour smoothFactor n1 ascii received1 rgb1 scheme iterations .ESCAPED).2.r = 0 ∧
      (mapColour smoothFactor n2 ascii received2 rgb2 scheme iterations .ESCAPED).2.r = 0) ∧
    (scheme.mapColour = .mapColourSchemeBlackWhite → 0 < smoothFactor → smoothFactor ≤ 1 →
        iterations < 8 →
      (∀ j : Nat, j < 8 →
        (mapColour smoothFactor n1 ascii received1 rgb1 scheme iterations .ESCAPED).2.r.testBit j
          = if j = 7 - iterations then false else rgb1.r.testBit j) ∧
      (mapColour smoothFactor n1 ascii received1 rgb1 scheme iterations .ESCAPED).2.r < 256 ∧
      (mapColour smoothFactor n1 ascii received1 rgb1 scheme iterations .ESCAPED).2.g = rgb1.g ∧
      (mapColour smoothFactor n1 ascii received1 rgb1 scheme iterations .ESCAPED).2.b = rgb1.b) ∧
    (scheme.mapColour = .mapColourSchemeWhiteBlack → 0 < smoothFactor → smoothFactor ≤ 1 →
        iterations < 8 →
      (∀ j : Nat, j < 8 →
        (mapColour smoothFactor n1 ascii received1 rgb1 scheme iterations .ESCAPED).2.r.testBit j
          = if j = 7 - iterations then true else rgb1.r.testBit j) ∧
      (mapColour smoothFactor n1 ascii received1 rgb1 scheme iterations .ESCAPED).2.r < 256 ∧
      (mapColour smoothFactor n1 ascii received1 rgb1 scheme iterations .ESCAPED).2.g = rgb1.g ∧
      (mapColour smoothFactor n1 ascii received1 rgb1 scheme iterations .ESCAPED).2.b = rgb1.b) ∧
    (scheme.mapColour = .mapColourSchemeASCII →
      (mapColour smoothFactor n1 mapASCIIMapper received1 rgb1 scheme iterations status).1
        = (mapColour smoothFactor n2 mapASCIIMapper received2 rgb2 scheme iterations status).1) := by
  refine ⟨?_, ?_, ?_, ?_, ?_⟩
  · intro hm
    simp only [List.mem_cons, List.mem_singleton, List.not_mem_nil, or_false] at hm
    rcases hm with hm | hm | hm | hm | hm <;> cases status <;>
      simp [mapColour, callMapper, hm, mapColourSchemeAllVibrant,
        mapColourSchemeRedWhite, mapColourSchemeFire, mapColourSchemeRedHot,
        mapColourSchemeMatrix, hsvToRGB_overwrites rgb1 rgb2]
  · intro hm
    simp [mapColour, callMapper, hm, mapColourSchemeGreyscale]
  · intro hm h0 h1 hk
    have hmask := bitMask_smooth smoothFactor iterations h0 h1 hk
    simp only [mapColour, callMapper, hm, if_true, mapColourSchemeBlackWhite, hmask]
    exact ⟨fun j hj => clearBit_testBit rgb1.r iterations j hj,
      Nat.mod_lt _ (by norm_num), trivial, trivial⟩
  · intro hm h0 h1 hk
    have hmask := bitMask_smooth smoothFactor iterations h0 h1 hk
    simp only [mapColour, callMapper, hm, if_true, mapColourSchemeWhiteBlack, hmask]
    exact ⟨fun j hj => setBit_testBit rgb1.r iterations j hj,
      Nat.mod_lt _ (by norm_num), trivial, trivial⟩
  · intro hm
    cases status <;>
      simp [mapColour, callMapper, hm, mapASCIIMapper, mapASCII, mapASCIIIndex]

/-- C11 (amended) at concrete calls: the FIRE scheme at iteration count 7 for a
point that has not escaped gives the same result from the pixels 0x000000 and
0xFFFFFF and two values of `n`; the BLACK_WHITE scheme with smoothing factor 0.3
at bit position 2 clears bit 5 of the byte 0xFF. -/
theorem mapColour_deterministic_witness :
    (mapColour (3 / 10) 0 mapASCIIMapper ⟨0, .UNESCAPED⟩ ⟨0, 0, 0⟩
        ⟨.COLOUR_SCHEME_TYPE_FIRE, .BIT_DEPTH_24, .mapColourSchemeFire⟩ 7 .UNESCAPED
      = mapColour (3 / 10) 30 mapASCIIMapper ⟨5, .ESCAPED⟩ ⟨255, 255, 255⟩
        ⟨.COLOUR_SCHEME_TYPE_FIRE, .BIT_DEPTH_24, .mapColourSchemeFire⟩ 7 .UNESCAPED) ∧
    ((0 : ℚ) < 3 / 10 ∧ (3 / 10 : ℚ) ≤ 1 ∧ 2 < 8 ∧
      ∀ j : Nat, j < 8 →
        (mapColour (3 / 10) 0 mapASCIIMapper ⟨0, .UNESCAPED⟩ ⟨255, 0, 0⟩
          ⟨.COLOUR_SCHEME_TYPE_BLACK_WHITE, .BIT_DEPTH_1, .mapColourSchemeBlackWhite⟩
          2 .ESCAPED).2.r.testBit j
          = if j = 7 - 2 then false else (255 : Nat).testBit j) :=
  ⟨(mapColour_deterministic (3 / 10) mapASCIIMapper ⟨0, .UNESCAPED⟩ ⟨5, .ESCAPED⟩
      ⟨.COLOUR_SCHEME_TYPE_FIRE, .BIT_DEPTH_24, .mapColourSchemeFire⟩ 7 .UNESCAPED 0 30
      ⟨0, 0, 0⟩ ⟨255, 255, 255⟩).1 (by simp),
    by norm_num, by norm_num, by decide,
    ((mapColour_deterministic (3 / 10) mapASCIIMapper ⟨0, .UNESCAPED⟩ ⟨0, .UNESCAPED⟩
      ⟨.COLOUR_SCHEME_TYPE_BLACK_WHITE, .BIT_DEPTH_1, .mapColourSchemeBlackWhite⟩ 2 .ESCAPED 0 0
      ⟨255, 0, 0⟩ ⟨255, 0, 0⟩).2.2.1 rfl (by norm_num) (by norm_num) (by decide)).1⟩

/-! ## The ALL scheme -/

/-- C12 (the code at the failing input): smoothing factor 0.3, iteration count
0, status ESCAPED, ALL scheme.  The pixel of hue (20 * 0.7) mod 360 = 14,
saturation 0.6 and value 0.8 is (0, 110, 81).  `mapColour` does not produce it,
whatever `mapColourSchemeAll` finds in its parameters `n` and `status` after the
call through the pointer: a status other than ESCAPED gives black, and the
status ESCAPED gives the pixel of the whole-number hue
`((20 * n) mod 2 ^ 32) mod 360`.  Called directly on the count 0, which the
smoothed count 0.7 converts to, the function gives (0, 81, 81); on the count
214748365, whose product with 20 exceeds 2 ^ 32, it gives (0, 89, 81), the
pixel of hue 4. -/
theorem mapColour_all_hue (ascii : ColourRGB → ℚ → EscapeStatus → Option Nat × ColourRGB)
    (received : AllArguments) (indeterminate : ℚ) (rgb : ColourRGB) (n : Nat) :
    hsvToRGB rgb ⟨fmod (20 * smooth (3 / 10) 0) 360, 6 / 10, 8 / 10⟩ = ⟨0, 110, 81⟩ ∧
    (mapColour (3 / 10) indeterminate ascii received rgb
        ⟨.COLOUR_SCHEME_TYPE_ALL, .BIT_DEPTH_24, .mapColourSchemeAll⟩ 0 .ESCAPED).2
      ≠ ⟨0, 110, 81⟩ ∧
    (mapColour (3 / 10) indeterminate ascii ⟨n, .UNESCAPED⟩ rgb
        ⟨.COLOUR_SCHEME_TYPE_ALL, .BIT_DEPTH_24, .mapColourSchemeAll⟩ 0 .ESCAPED).2
      = ⟨0, 0, 0⟩ ∧
    (mapColour (3 / 10) indeterminate ascii ⟨n, .ESCAPED⟩ rgb
        ⟨.COLOUR_SCHEME_TYPE_ALL, .BIT_DEPTH_24, .mapColourSchemeAll⟩ 0 .ESCAPED).2
      = hsvToRGB rgb ⟨(((20 * n) % 2 ^ UINT_BITS % 360 : ℕ) : ℚ), 6 / 10, 8 / 10⟩ ∧
    mapColourSchemeAll rgb 0 .ESCAPED = ⟨0, 81, 81⟩ ∧
    mapColourSchemeAll rgb 214748365 .ESCAPED = ⟨0, 89, 81⟩ := by
  refine ⟨?_, ?_, ?_, ?_, ?_, ?_⟩
  · simp only [hsvToRGB, toUInt8, wrap, truncate, fmod, smooth]
    norm_num
    simp
  · obtain ⟨m, st⟩ := received
    cases st
    · simp only [mapColour, callMapper, mapColourSchemeAll_escaped]
      exact hue_multiple_of_four rgb _ (Nat.mod_lt _ (by norm_num))
        (by
          unfold UINT_BITS
          omega)
    · simp only [mapColour, callMapper, mapColourSchemeAll_unescaped]
      simp
  · simp only [mapColour, callMapper, mapColourSchemeAll_unescaped]
  · simp only [mapColour, callMapper, mapColourSchemeAll_escaped]
  · rw [mapColourSchemeAll_escaped]
    simp only [hsvToRGB, toUInt8, wrap, truncate, UINT_BITS]
    norm_num
    simp
  · rw [mapColourSchemeAll_escaped]
    simp only [hsvToRGB, toUInt8, wrap, truncate, UINT_BITS]
    norm_num
    simp

/-! ## Precision selection -/

/-- C14 (the code at the failing input): `imageRowOutput` stores the one routine
`generateFractalRow` for the standard, the extended and (in a build with
`MP_PREC`) the arbitrary precision mode alike, so the whole function behaves the
same for the standard and the extended mode, whereas `imageOutput` stores
`generateFractal`, `generateFractalExt` and `generateFractalMP` respectively; a
precision value that is not supported makes both functions return 1 without
having made any allocating call. -/
theorem imageRowOutput_one_kernel (mpPrec : Bool) (al : Allocator) (p : PlotCTX)
    (rowRun : FractalKernel → Nat → Option (Nat → Nat)) (heap : Nat → Nat)
    (exchanges : List Exchange) (idBits fuel : Nat)
    (run : FractalKernel → Block → Option (Nat → Nat)) :
    imageRowOutputKernel mpPrec .STD_PRECISION = some .generateFractalRow ∧
    imageRowOutputKernel mpPrec .EXT_PRECISION = some .generateFractalRow ∧
    imageRowOutputKernel true .MUL_PRECISION = some .generateFractalRow ∧
    imageRowOutput mpPrec .EXT_PRECISION al p rowRun heap exchanges
      = imageRowOutput mpPrec .STD_PRECISION al p rowRun heap exchanges ∧
    imageOutputKernel mpPrec .STD_PRECISION = some .generateFractal ∧
    imageOutputKernel mpPrec .EXT_PRECISION = some .generateFractalExt ∧
    imageOutputKernel true .MUL_PRECISION = some .generateFractalMP ∧
    (∀ raw : Int,
      imageRowOutput mpPrec (.outOfRange raw) al p rowRun heap exchanges = some (1, [], []) ∧
      imageOutput mpPrec (.outOfRange raw) al idBits run fuel p = some (1, p, [])) ∧
    imageRowOutput false .MUL_PRECISION al p rowRun heap exchanges = some (1, [], []) ∧
    imageOutput false .MUL_PRECISION al idBits run fuel p = some (1, p, []) :=
  ⟨rfl, rfl, rfl, rfl, rfl, rfl, rfl, fun _ => ⟨rfl, rfl⟩, rfl, rfl⟩

/-! ## Row messages of imageRowOutput -/

/-- The character of a decimal digit is the byte 48 + digit. -/
theorem digitChar_toNat (d : Nat) (hd : d < 10) : (Nat.digitChar d).toNat = 48 + d := by
  interval_cases d <;> rfl

/-- Reading back the digits produced by the digit loop of `Nat.repr`: the digits
of `n` in front of a string read as `n` followed by the rest of the string. -/
theorem parseDecAux_toDigitsCore (rest : List Nat) :
    ∀ (fuel n : Nat) (ds : List Char), n < fuel →
      parseDecAux 0 ((Nat.toDigitsCore 10 fuel n ds).map Char.toNat ++ rest)
        = parseDecAux n (ds.map Char.toNat ++ rest) := by
  intro fuel
  induction fuel with
  | zero =>
    intro n ds h
    omega
  | succ fuel ih =>
    intro n ds h
    have hdig : isDigitByte (48 + n % 10) = true := by
      have : n % 10 < 10 := Nat.mod_lt _ (by norm_num)
      simp [isDigitByte]
      omega
    have hchar := digitChar_toNat (n % 10) (Nat.mod_lt _ (by norm_num))
    by_cases hz : n / 10 = 0
    · have hn : n % 10 = n := Nat.mod_eq_of_lt (by omega)
      simp only [Nat.toDigitsCore, hz, if_true, List.map_cons, List.cons_append, parseDecAux,
        hchar, hdig]
      congr 1
      omega
    · have hlt : n / 10 < fuel := by omega
      simp only [Nat.toDigitsCore, hz, if_false]
      rw [ih (n / 10) _ hlt]
      simp only [List.map_cons, List.cons_append, parseDecAux, hchar, hdig, if_true]
      congr 1
      omega

/-- Reading back a printed number: the `%zu` text of `r`, at the end of the
string or followed by a byte that is not a digit, reads as `r`. -/
theorem parseDecAux_fmtZu (r : Nat) (rest : List Nat)
    (hrest : rest = [] ∨ ∃ b tail, rest = b :: tail ∧ isDigitByte b = false) :
    parseDecAux 0 (cstr (fmtZu r) ++ rest) = r := by
  have h := parseDecAux_toDigitsCore rest (r + 1) r [] (Nat.lt_succ_self r)
  have hdata : (fmtZu r).data = Nat.toDigitsCore 10 (r + 1) r [] := rfl
  unfold cstr
  rw [hdata, h]
  rcases hrest with rfl | ⟨b, tail, rfl, hb⟩
  · rfl
  · simp [parseDecAux, hb]

/-- The printed row number has as many bytes as characters. -/
theorem cstr_fmtZu_length (r : Nat) : (cstr (fmtZu r)).length = (fmtZu r).length := by
  unfold cstr
  rw [List.length_map]
  rfl

/-- The rest of the prefix fills the six bytes when the digits and the NUL fit
the buffer. -/
theorem prefixPad_length (writeBuffer : List Nat) (len size : Nat)
    (hbuf : writeBuffer.length = size + 6) (hfit : len + 1 ≤ size + 6) :
    (prefixPad writeBuffer len).length = 6 - len := by
  unfold prefixPad
  rw [List.length_take, List.length_cons, List.length_drop, hbuf]
  omega

/-- The write buffer after the row number of at most six digits has been printed
and the row copied in: the digits, the rest of the 6-byte prefix, then the
`rowSize` bytes of the row array. -/
theorem fillWriteBuffer_shape (p : PlotCTX) (r : Nat) (rowArray : Nat → Nat)
    (writeBuffer : List Nat) (hlen : (fmtZu r).length ≤ 6)
    (hbuf : writeBuffer.length = rowSize p + 6)
    (hfit : (fmtZu r).length + 1 ≤ rowSize p + 6) :
    fillWriteBuffer p r rowArray writeBuffer
      = some (cstr (fmtZu r) ++ prefixPad writeBuffer (fmtZu r).length
          ++ (List.range (rowSize p)).map rowArray) := by
  have hD := cstr_fmtZu_length r
  have h1 : sprintfZu writeBuffer r
      = some (cstr (fmtZu r) ++ 0 :: writeBuffer.drop ((fmtZu r).length + 1)) := by
    unfold sprintfZu store
    rw [if_pos (by simp [hD, hbuf]; omega)]
    simp [hD]
  have hb1 : (cstr (fmtZu r) ++ 0 :: writeBuffer.drop ((fmtZu r).length + 1)).length
      = rowSize p + 6 := by
    rw [List.length_append, List.length_cons, List.length_drop, hD, hbuf]
    omega
  have htake : (cstr (fmtZu r) ++ 0 :: writeBuffer.drop ((fmtZu r).length + 1)).take 6
      = cstr (fmtZu r) ++ prefixPad writeBuffer (fmtZu r).length := by
    rw [List.take_append_eq_append_take, hD, List.take_of_length_le (by omega)]
    rfl
  unfold fillWriteBuffer
  rw [h1, Option.some_bind]
  unfold memcpy store
  rw [if_pos (by rw [hb1]; simp; omega)]
  rw [htake, List.drop_eq_nil_of_le (by rw [hb1]; simp; omega), List.append_nil]

/-- The shape of a row message: the digits of the row number, the rest of the
6-byte prefix, then the `rowSize` bytes of the row array. -/
theorem rowMessage_shape (p : PlotCTX) (r : Nat) (rowArray : Nat → Nat)
    (writeBuffer : List Nat) (hlen : (fmtZu r).length ≤ 6)
    (hsize : rowSize p + 6 < 2 ^ SIZE_BITS) (hbuf : writeBuffer.length = rowSize p + 6)
    (hfit : (fmtZu r).length + 1 ≤ rowSize p + 6) :
    rowMessage p r rowArray writeBuffer
      = some (cstr (fmtZu r) ++ prefixPad writeBuffer (fmtZu r).length
          ++ (List.range (rowSize p)).map rowArray) := by
  have hlen2 : (cstr (fmtZu r) ++ prefixPad writeBuffer (fmtZu r).length
      ++ (List.range (rowSize p)).map rowArray).length = rowSize p + 6 := by
    rw [List.length_append, List.length_append, cstr_fmtZu_length,
      prefixPad_length writeBuffer _ (rowSize p) hbuf hfit]
    simp
    omega
  unfold rowMessage
  rw [fillWriteBuffer_shape p r rowArray writeBuffer hlen hbuf hfit, Option.some_bind,
    Nat.mod_eq_of_lt hsize]
  unfold readBytes
  rw [if_pos (le_of_eq hlen2.symm), List.take_of_length_le (le_of_eq hlen2)]

/-- C13 (counterexample): three runs of the code of `imageRowOutput` on a write
buffer of `rowSize + 6` bytes.  For row 1000000 of an image 8 pixels wide at
8-bit depth the message starts with the six bytes "100000", the seventh digit
having been overwritten by the first pixel byte, and the prefix reads as 100000.
For row 100000 of an image 4 pixels wide at 1-bit depth the row size is 0 and
the six digits with their NUL do not fit the 6 bytes of the buffer: no message
is defined.  And the first message of a run, written into a buffer that still
holds bytes 65, carries those bytes after the NUL: for row 5 the prefix is '5',
NUL, 65, 65, 65, 65. -/
theorem rowMessage_prefix_overflow :
    rowMessage ⟨8, 2000000, .OUTPUT_PNM,
        ⟨.COLOUR_SCHEME_TYPE_GREYSCALE, .BIT_DEPTH_8, .mapColourSchemeGreyscale⟩, none⟩
        1000000 (fun _ => 255) (malloc (fun _ => 0) 14)
      = some [49, 48, 48, 48, 48, 48, 255, 255, 255, 255, 255, 255, 255, 255] ∧
    (rowMessage ⟨8, 2000000, .OUTPUT_PNM,
        ⟨.COLOUR_SCHEME_TYPE_GREYSCALE, .BIT_DEPTH_8, .mapColourSchemeGreyscale⟩, none⟩
        1000000 (fun _ => 255) (malloc (fun _ => 0) 14)).map parsePrefix = some 100000 ∧
    rowSize ⟨4, 2000000, .OUTPUT_PNM,
        ⟨.COLOUR_SCHEME_TYPE_BLACK_WHITE, .BIT_DEPTH_1, .mapColourSchemeBlackWhite⟩, none⟩ = 0 ∧
    rowMessage ⟨4, 2000000, .OUTPUT_PNM,
        ⟨.COLOUR_SCHEME_TYPE_BLACK_WHITE, .BIT_DEPTH_1, .mapColourSchemeBlackWhite⟩, none⟩
        100000 (fun _ => 255) (malloc (fun _ => 0) 6) = none ∧
    (rowMessage ⟨8, 2000000, .OUTPUT_PNM,
        ⟨.COLOUR_SCHEME_TYPE_GREYSCALE, .BIT_DEPTH_8, .mapColourSchemeGreyscale⟩, none⟩
        5 (fun _ => 255) (malloc (fun _ => 65) 14)).map (List.take 6)
      = some [53, 0, 65, 65, 65, 65] := by
  refine ⟨by decide, by decide, by decide, by decide, by decide⟩

/-- When the digits leave room in the prefix, the byte after them is the NUL. -/
theorem prefixPad_cons (writeBuffer : List Nat) (len : Nat) (hlen : len < 6) :
    prefixPad writeBuffer len = 0 :: (writeBuffer.drop (len + 1)).take (5 - len) := by
  have h6 : 6 - len = (5 - len) + 1 := by omega
  unfold prefixPad
  rw [h6, List.take_succ_cons]

/-- In a buffer whose first six bytes are NUL the rest of the prefix is NUL. -/
theorem prefixPad_cleared (writeBuffer : List Nat) (len size : Nat)
    (hbuf : writeBuffer.length = size + 6) (hfit : len + 1 ≤ size + 6)
    (hzero : ∀ i, i < 6 → writeBuffer[i]? = some 0) :
    prefixPad writeBuffer len = List.replicate (6 - len) 0 := by
  rw [List.eq_replicate_iff]
  refine ⟨prefixPad_length writeBuffer len size hbuf hfit, ?_⟩
  intro b hb
  unfold prefixPad at hb
  obtain ⟨k, hk, hget⟩ := List.getElem_of_mem hb
  rw [List.length_take] at hk
  rw [List.getElem_take] at hget
  rcases k with _ | k
  · simpa using hget.symm
  · have hk6 : len + 1 + k < 6 := by omega
    have hz := hzero (len + 1 + k) hk6
    simp only [List.getElem_cons_succ, List.getElem_drop] at hget
    rw [List.getElem?_eq_getElem (by omega)] at hz
    have := Option.some.inj hz
    omega

/-- The row size without `size_t` overflow. -/
theorem rowSize_eq (p : PlotCTX) (hsize : p.width * 24 + 6 < 2 ^ SIZE_BITS) :
    rowSize p = (if p.colour.depth = .BIT_DEPTH_ASCII then p.width
      else p.width * p.colour.depth.bits / 8) ∧
    rowSize p + 6 < 2 ^ SIZE_BITS := by
  have hw : p.width < 2 ^ SIZE_BITS := by omega
  unfold rowSize
  cases hd : p.colour.depth
  · simp only [if_true, Nat.mul_one, Nat.mod_eq_of_lt hw]
    constructor <;> first | trivial | rfl | omega
  · have h1 : p.width * 1 < 2 ^ SIZE_BITS := by omega
    simp only [reduceCtorEq, if_false, BitDepth.bits, Nat.mod_eq_of_lt h1]
    constructor <;> first | trivial | rfl | omega
  · have h8 : p.width * 8 < 2 ^ SIZE_BITS := by omega
    simp only [reduceCtorEq, if_false, BitDepth.bits, Nat.mod_eq_of_lt h8]
    constructor <;> first | trivial | rfl | omega
  · have h24 : p.width * 24 < 2 ^ SIZE_BITS := by omega
    simp only [reduceCtorEq, if_false, BitDepth.bits, Nat.mod_eq_of_lt h24]
    constructor <;> first | trivial | rfl | omega

/-- Clearing a whole buffer leaves as many NUL bytes. -/
theorem memset_whole (buffer : List Nat) (size : Nat) (hlen : buffer.length = size) :
    memset buffer 0 size = some (List.replicate size 0) := by
  unfold memset store
  rw [if_pos (by simp [hlen])]
  simp [hlen]

/-- C13 (amended): take a row index r below 10^6 (at most six digits), a width
for which width * 24 + 6 does not overflow `size_t`, and the write buffer of
rowSize + 6 bytes, with rowSize = width * depth / 8 rounded down (width for
ASCII), which is the size `imageRowOutput` allocates; when r has six digits let
rowSize be at least 1.  Then `imageRowOutput` hands `writeSocket` a message of
exactly 6 + rowSize bytes; it starts with the
decimal digits of r, followed by a NUL when r has fewer than six digits, so that
parsing the 6-byte prefix recovers r; bytes 6 .. 6+rowSize-1 are the bytes of
the row array, unchanged; when the first six bytes of the buffer were NUL before,
the prefix is the digits NUL-padded to six bytes; and a pass of the loop that
sends the message leaves the buffer all NUL for the next pass. -/
theorem rowMessage_framing (p : PlotCTX) (r : Nat) (rowArray : Nat → Nat)
    (writeBuffer : List Nat) (hr : r < 10 ^ 6) (hsize : p.width * 24 + 6 < 2 ^ SIZE_BITS)
    (hbuf : writeBuffer.length = rowSize p + 6) (hroom : r < 10 ^ 5 ∨ 1 ≤ rowSize p) :
    rowSize p = (if p.colour.depth = .BIT_DEPTH_ASCII then p.width
      else p.width * p.colour.depth.bits / 8) ∧
    (∀ heap : Nat → Nat,
      (malloc heap ((rowSize p + 6) % 2 ^ SIZE_BITS)).length = rowSize p + 6) ∧
    (fmtZu r).length ≤ 6 ∧
    ∃ message : List Nat,
      rowMessage p r rowArray writeBuffer = some message ∧
      message.length = 6 + rowSize p ∧
      message.take (fmtZu r).length = cstr (fmtZu r) ∧
      ((fmtZu r).length < 6 → message[(fmtZu r).length]? = some 0) ∧
      parsePrefix message = r ∧
      message.drop 6 = (List.range (rowSize p)).map rowArray ∧
      ((∀ i, i < 6 → writeBuffer[i]? = some 0) →
        message.take 6 = cstr (fmtZu r) ++ List.replicate (6 - (fmtZu r).length) 0) ∧
      (∀ (run : Nat → Option (Nat → Nat)) (e : Exchange) (rest : List Exchange)
          (sent : List (List Nat)),
        e.pingRet = 1 → 0 < e.requestRet → e.row = r → run r = some rowArray →
        e.sendRet = ((rowSize p + 6 : Nat) : Int) → 0 < e.ackRet →
        imageRowOutputLoop p run (e :: rest) writeBuffer sent
          = imageRowOutputLoop p run rest (List.replicate (rowSize p + 6) 0)
              (sent ++ [message])) := by
  obtain ⟨hrs, hfit⟩ := rowSize_eq p hsize
  have hlen : (fmtZu r).length ≤ 6 := Nat.repr_length r 6 (by norm_num) hr
  have hroom2 : (fmtZu r).length + 1 ≤ rowSize p + 6 := by
    rcases hroom with h5 | h1
    · have : (fmtZu r).length ≤ 5 := Nat.repr_length r 5 (by norm_num) h5
      omega
    · omega
  have hfill := fillWriteBuffer_shape p r rowArray writeBuffer hlen hbuf hroom2
  have hshape := rowMessage_shape p r rowArray writeBuffer hlen hfit hbuf hroom2
  have hD := cstr_fmtZu_length r
  have hpadlen := prefixPad_length writeBuffer (fmtZu r).length (rowSize p) hbuf hroom2
  have hpre : (cstr (fmtZu r) ++ prefixPad writeBuffer (fmtZu r).length).length = 6 := by
    rw [List.length_append, hD, hpadlen]
    omega
  have hmsg : (cstr (fmtZu r) ++ prefixPad writeBuffer (fmtZu r).length
      ++ (List.range (rowSize p)).map rowArray).length = rowSize p + 6 := by
    rw [List.length_append, hpre]
    simp
    omega
  have hmalloc : ∀ heap : Nat → Nat,
      (malloc heap ((rowSize p + 6) % 2 ^ SIZE_BITS)).length = rowSize p + 6 := by
    intro heap
    simp [malloc, Nat.mod_eq_of_lt hfit]
  refine ⟨hrs, hmalloc, hlen, _, hshape, ?_, ?_, ?_, ?_, ?_, ?_, ?_⟩
  · rw [hmsg]
    omega
  · rw [List.append_assoc]
    exact List.take_left' hD
  · intro hlt
    rw [List.append_assoc, prefixPad_cons writeBuffer _ hlt]
    rw [List.getElem?_append_right (by omega), hD]
    simp
  · unfold parsePrefix
    rw [List.take_left' hpre]
    apply parseDecAux_fmtZu
    by_cases hlt : (fmtZu r).length < 6
    · right
      exact ⟨0, _, prefixPad_cons writeBuffer _ hlt, by decide⟩
    · left
      have h6 : 6 - (fmtZu r).length = 0 := by omega
      simp [prefixPad, h6]
  · exact List.drop_left' hpre
  · intro hzero
    rw [List.take_left' hpre, prefixPad_cleared writeBuffer _ (rowSize p) hbuf hroom2 hzero]
  · intro run e rest sent hping hreq hrow hrun hsend hack
    have h1 : ¬ (e.requestRet = 0) := by omega
    have h2 : ¬ (e.requestRet < 0) := by omega
    have h3 : ¬ (e.ackRet = 0) := by omega
    have h4 : ¬ (e.ackRet < 0) := by omega
    have h5 : ¬ (((rowSize p + 6 : Nat) : Int) = 0) := by omega
    have h6 : ¬ (((rowSize p + 6 : Nat) : Int) < 0) := by omega
    have hread : readBytes (cstr (fmtZu r) ++ prefixPad writeBuffer (fmtZu r).length
        ++ (List.range (rowSize p)).map rowArray) (rowSize p + 6)
        = some (cstr (fmtZu r) ++ prefixPad writeBuffer (fmtZu r).length
          ++ (List.range (rowSize p)).map rowArray) := by
      unfold readBytes
      rw [if_pos (le_of_eq hmsg.symm), List.take_of_length_le (le_of_eq hmsg)]
    simp only [imageRowOutputLoop, hping, hrow, hrun, hsend, Nat.mod_eq_of_lt hfit, h1, h2, h3,
      h4, h5, h6, hfill, hread, memset_whole _ _ hmsg, one_ne_zero, if_false, ne_eq,
      not_true_eq_false, or_self, or_false]
    norm_num

/-- C13 (amended) at row 5 of an image 8 pixels wide at 8-bit depth, written
into a freshly allocated buffer of 14 bytes that holds bytes 65: the message
has 14 bytes, its prefix reads as 5 and the eight pixel bytes follow. -/
theorem rowMessage_framing_witness :
    ((5 : Nat) < 10 ^ 6 ∧ 8 * 24 + 6 < 2 ^ SIZE_BITS ∧
      (malloc (fun _ => 65) 14).length = rowSize ⟨8, 2000000, .OUTPUT_PNM,
        ⟨.COLOUR_SCHEME_TYPE_GREYSCALE, .BIT_DEPTH_8, .mapColourSchemeGreyscale⟩, none⟩ + 6 ∧
      (5 : Nat) < 10 ^ 5) ∧
    (rowMessage ⟨8, 2000000, .OUTPUT_PNM,
        ⟨.COLOUR_SCHEME_TYPE_GREYSCALE, .BIT_DEPTH_8, .mapColourSchemeGreyscale⟩, none⟩
        5 (fun j => 200 + j) (malloc (fun _ => 65) 14)).map List.length
      = some (6 + rowSize ⟨8, 2000000, .OUTPUT_PNM,
        ⟨.COLOUR_SCHEME_TYPE_GREYSCALE, .BIT_DEPTH_8, .mapColourSchemeGreyscale⟩, none⟩) ∧
    (rowMessage ⟨8, 2000000, .OUTPUT_PNM,
        ⟨.COLOUR_SCHEME_TYPE_GREYSCALE, .BIT_DEPTH_8, .mapColourSchemeGreyscale⟩, none⟩
        5 (fun j => 200 + j) (malloc (fun _ => 65) 14)).map parsePrefix = some 5 ∧
    (rowMessage ⟨8, 2000000, .OUTPUT_PNM,
        ⟨.COLOUR_SCHEME_TYPE_GREYSCALE, .BIT_DEPTH_8, .mapColourSchemeGreyscale⟩, none⟩
        5 (fun j => 200 + j) (malloc (fun _ => 65) 14)).map (List.drop 6)
      = some [200, 201, 202, 203, 204, 205, 206, 207] := by
  obtain ⟨_, _, _, message, hm, hl, _, _, hp, hd, _, _⟩ :=
    rowMessage_framing ⟨8, 2000000, .OUTPUT_PNM,
      ⟨.COLOUR_SCHEME_TYPE_GREYSCALE, .BIT_DEPTH_8, .mapColourSchemeGreyscale⟩, none⟩
      5 (fun j => 200 + j) (malloc (fun _ => 65) 14) (by decide) (by decide) (by decide)
      (Or.inl (by decide))
  rw [hm, Option.map_some', Option.map_some', Option.map_some', hl, hp, hd]
  exact ⟨⟨by decide, by decide, by decide, by decide⟩, rfl, rfl, by decide⟩

end Mandelbrot
